import Mathlib

/-!
Verification of the IPv6 overlap engine of this repository
(src/js/core/overlap-engine.js: classes OverlapEngine and IPv6Utils).

Modelling conventions:
* JS `BigInt` values are modelled as `Int` (they are exact integers); values
  that are provably nonnegative (network bases, sizes) are sometimes carried
  as `Nat` and cast.  JS `BigInt` division truncates toward zero, which is
  `Int.tdiv`.
* JS strings are modelled as `List Char` (the functions under scrutiny work
  on code points only); display labels are kept as Lean `String`.
* JS `Map` objects are modelled as association lists in insertion order:
  `set` on a present key updates in place, otherwise appends; iteration
  order is insertion order, exactly as for a JS `Map`.
* Fallible code paths (`throw` caught by a `try`/`catch`) are modelled with
  `Option`.
-/

set_option maxRecDepth 40000

/-- One entry of `OverlapEngine.SEVERITY_LEVELS` (fields `level`, `label`,
`color`, `priority`; the last one is called `prio` here). -/
structure Severity where
  level : Nat
  label : String
  color : String
  prio : String
deriving DecidableEq

/-- SEVERITY_LEVELS.CRITICAL from the OverlapEngine constructor. -/
def SEVERITY_CRITICAL : Severity := ⟨4, "Crítico", "error", "high"⟩

/-- SEVERITY_LEVELS.HIGH from the OverlapEngine constructor. -/
def SEVERITY_HIGH : Severity := ⟨3, "Alto", "warning", "high"⟩

/-- SEVERITY_LEVELS.MEDIUM from the OverlapEngine constructor. -/
def SEVERITY_MEDIUM : Severity := ⟨2, "Médio", "warning", "medium"⟩

/-- SEVERITY_LEVELS.LOW from the OverlapEngine constructor. -/
def SEVERITY_LOW : Severity := ⟨1, "Baixo", "info", "low"⟩

/-- SEVERITY_LEVELS.NONE from the OverlapEngine constructor. -/
def SEVERITY_NONE : Severity := ⟨0, "Sem Conflito", "success", "none"⟩

/-- Result record of `OverlapEngine.analyzeOverlap` /
`analyzeOverlapDetails` / `analyzeNoOverlap`.  The JS object stores the
numeric detail fields as decimal (or address) strings; since that
formatting is injective we keep the underlying integers.  The JS field
`type` is called `otype` here.  Fields that a branch does not set keep
their defaults. -/
structure OverlapAnalysis where
  hasOverlap : Bool
  otype : String
  severity : Severity
  overlapStart : Int := 0
  overlapEnd : Int := 0
  overlapSize : Int := 0
  percentageOverlap : Int := 0
  isAdjacent : Bool := false
  distance : Int := 0
deriving DecidableEq

/-- `OverlapEngine.calculateDistance`. -/
def calculateDistance (s1 e1 s2 e2 : Int) : Int :=
  if e1 < s2 then s2 - e1 - 1
  else if e2 < s1 then s1 - e2 - 1
  else 0

/-- `OverlapEngine.calculateOverlapPercentage`.  The JS code computes
`Number((overlapSize * 100n) / smallerSize)` — a BigInt division truncating
toward zero (`Int.tdiv`) — and then `Math.round(p * 100) / 100`, which is
the identity on the integer `p` (all values involved are far below 2^53, so
the `Number` conversion is exact).  A division by zero throws in JS and the
surrounding `catch` returns 0; `Int.tdiv _ 0 = 0` agrees. -/
def calculateOverlapPercentage (s1 e1 s2 e2 ovSize : Int) : Int :=
  let size1 := e1 - s1 + 1
  let size2 := e2 - s2 + 1
  let smallerSize := if size1 < size2 then size1 else size2
  Int.tdiv (ovSize * 100) smallerSize

/-- `OverlapEngine.analyzeOverlapDetails` (the `reason` display string is
omitted; it is interpolated presentation text). -/
def analyzeOverlapDetails (s1 e1 s2 e2 : Int) : OverlapAnalysis :=
  let ts : String × Severity :=
    if s1 = s2 ∧ e1 = e2 then ("identical", SEVERITY_CRITICAL)
    else if s1 ≤ s2 ∧ e1 ≥ e2 then ("first_contains_second", SEVERITY_HIGH)
    else if s2 ≤ s1 ∧ e2 ≥ e1 then ("second_contains_first", SEVERITY_HIGH)
    else ("partial", SEVERITY_MEDIUM)
  let overlapStart := if s1 > s2 then s1 else s2
  let overlapEnd := if e1 < e2 then e1 else e2
  let overlapSize := overlapEnd - overlapStart + 1
  { hasOverlap := true
    otype := ts.1
    severity := ts.2
    overlapStart := overlapStart
    overlapEnd := overlapEnd
    overlapSize := overlapSize
    percentageOverlap := calculateOverlapPercentage s1 e1 s2 e2 overlapSize }

/-- `OverlapEngine.analyzeNoOverlap`. -/
def analyzeNoOverlap (s1 e1 s2 e2 : Int) : OverlapAnalysis :=
  let isAdj := e1 + 1 = s2 ∨ e2 + 1 = s1
  { hasOverlap := false
    otype := if isAdj then "adjacent" else "no_overlap"
    severity := SEVERITY_NONE
    isAdjacent := isAdj
    distance := calculateDistance s1 e1 s2 e2 }

/-- `OverlapEngine.analyzeOverlap`: `s1`/`e1` are
`network1.networkBigInt`/`network1.broadcastBigInt`, similarly for the
second range. -/
def analyzeOverlap (s1 e1 s2 e2 : Int) : OverlapAnalysis :=
  if (s1 ≤ s2 ∧ e1 ≥ s2) ∨ (s2 ≤ s1 ∧ e2 ≥ s1) then
    analyzeOverlapDetails s1 e1 s2 e2
  else
    analyzeNoOverlap s1 e1 s2 e2

theorem analyzeOverlap_hasOverlap (s1 e1 s2 e2 : Int) :
    (analyzeOverlap s1 e1 s2 e2).hasOverlap
      = decide ((s1 ≤ s2 ∧ e1 ≥ s2) ∨ (s2 ≤ s1 ∧ e2 ≥ s1)) := by
  unfold analyzeOverlap
  split
  · simp [analyzeOverlapDetails]
    omega
  · simp [analyzeNoOverlap]
    omega

/-- C1: for valid ranges (base ≤ last on both sides) the classifier reports
`hasOverlap = true` iff `a0 ≤ b1` and `b0 ≤ a1`. -/
theorem c1_hasOverlap_iff (s1 e1 s2 e2 : Int) (h1 : s1 ≤ e1) (h2 : s2 ≤ e2) :
    (analyzeOverlap s1 e1 s2 e2).hasOverlap = true ↔ (s1 ≤ e2 ∧ s2 ≤ e1) := by
  rw [analyzeOverlap_hasOverlap]
  simp only [decide_eq_true_eq]
  omega

theorem c1_witness :
    ((0 : Int) ≤ 10 ∧ (5 : Int) ≤ 20) ∧
      ((analyzeOverlap 0 10 5 20).hasOverlap = true ↔
        ((0 : Int) ≤ 20 ∧ (5 : Int) ≤ 10)) :=
  ⟨by decide, c1_hasOverlap_iff 0 10 5 20 (by decide) (by decide)⟩

/-- C2: on an overlapping pair of valid ranges the classifier assigns the
first matching case of the priority cascade: IDENTICAL/CRITICAL, then
FIRST_CONTAINS_SECOND/HIGH, then SECOND_CONTAINS_FIRST/HIGH, else
PARTIAL/MEDIUM. -/
theorem c2_priority_cascade (s1 e1 s2 e2 : Int) (h1 : s1 ≤ e1) (h2 : s2 ≤ e2)
    (hov : (analyzeOverlap s1 e1 s2 e2).hasOverlap = true) :
    let r := analyzeOverlap s1 e1 s2 e2
    (s1 = s2 ∧ e1 = e2 → r.otype = "identical" ∧ r.severity = SEVERITY_CRITICAL) ∧
    (¬(s1 = s2 ∧ e1 = e2) → s1 ≤ s2 ∧ e2 ≤ e1 →
      r.otype = "first_contains_second" ∧ r.severity = SEVERITY_HIGH) ∧
    (¬(s1 = s2 ∧ e1 = e2) → ¬(s1 ≤ s2 ∧ e2 ≤ e1) → s2 ≤ s1 ∧ e1 ≤ e2 →
      r.otype = "second_contains_first" ∧ r.severity = SEVERITY_HIGH) ∧
    (¬(s1 = s2 ∧ e1 = e2) → ¬(s1 ≤ s2 ∧ e2 ≤ e1) → ¬(s2 ≤ s1 ∧ e1 ≤ e2) →
      r.otype = "partial" ∧ r.severity = SEVERITY_MEDIUM) := by
  have hcond : ((s1 ≤ s2 ∧ e1 ≥ s2) ∨ (s2 ≤ s1 ∧ e2 ≥ s1)) := by
    have := analyzeOverlap_hasOverlap s1 e1 s2 e2
    rw [hov] at this
    exact of_decide_eq_true this.symm
  intro r
  have hr : r = analyzeOverlapDetails s1 e1 s2 e2 := by
    show analyzeOverlap s1 e1 s2 e2 = _
    unfold analyzeOverlap
    rw [if_pos hcond]
  refine ⟨?_, ?_, ?_, ?_⟩
  · rintro ⟨hs, he⟩
    subst hs he
    rw [hr]
    simp [analyzeOverlapDetails]
  · intro hne ⟨ha, hb⟩
    rw [hr]
    unfold analyzeOverlapDetails
    rw [if_neg hne, if_pos ⟨ha, hb⟩]
    exact ⟨rfl, rfl⟩
  · intro hne hnc ⟨ha, hb⟩
    rw [hr]
    unfold analyzeOverlapDetails
    rw [if_neg hne, if_neg hnc, if_pos ⟨ha, hb⟩]
    exact ⟨rfl, rfl⟩
  · intro hne hnc hnd
    rw [hr]
    unfold analyzeOverlapDetails
    rw [if_neg hne, if_neg hnc, if_neg hnd]
    exact ⟨rfl, rfl⟩

theorem c2_witness :
    ((0 : Int) ≤ 30 ∧ (10 : Int) ≤ 20 ∧
        (analyzeOverlap 0 30 10 20).hasOverlap = true) ∧
      ((analyzeOverlap 0 30 10 20).otype = "first_contains_second" ∧
        (analyzeOverlap 0 30 10 20).severity = SEVERITY_HIGH) :=
  ⟨by decide,
    (c2_priority_cascade 0 30 10 20 (by decide) (by decide) (by decide)).2.1
      (by decide) (by decide)⟩

/-- C7: FIRST_CONTAINS_SECOND under one argument order iff
SECOND_CONTAINS_FIRST under the swapped order, and in that case the two
results report the same overlap size.  Holds for all inputs, no validity
assumption needed. -/
theorem c7_containment_symmetry (s1 e1 s2 e2 : Int) :
    ((analyzeOverlap s1 e1 s2 e2).otype = "first_contains_second" ↔
      (analyzeOverlap s2 e2 s1 e1).otype = "second_contains_first") ∧
    ((analyzeOverlap s1 e1 s2 e2).otype = "first_contains_second" →
      (analyzeOverlap s1 e1 s2 e2).overlapSize
        = (analyzeOverlap s2 e2 s1 e1).overlapSize) := by
  unfold analyzeOverlap analyzeOverlapDetails analyzeNoOverlap
  by_cases hov : ((s1 ≤ s2 ∧ e1 ≥ s2) ∨ (s2 ≤ s1 ∧ e2 ≥ s1))
  · have hov2 : ((s2 ≤ s1 ∧ e2 ≥ s1) ∨ (s1 ≤ s2 ∧ e1 ≥ s2)) := hov.symm
    rw [if_pos hov, if_pos hov2]
    by_cases hid : (s1 = s2 ∧ e1 = e2)
    · have hid2 : (s2 = s1 ∧ e2 = e1) := ⟨hid.1.symm, hid.2.symm⟩
      rw [if_pos hid, if_pos hid2]
      simp
    · have hid2 : ¬(s2 = s1 ∧ e2 = e1) := fun h => hid ⟨h.1.symm, h.2.symm⟩
      rw [if_neg hid, if_neg hid2]
      by_cases hfc : (s1 ≤ s2 ∧ e1 ≥ e2)
      · have hnc2 : ¬(s2 ≤ s1 ∧ e2 ≥ e1) := by
          rintro ⟨ha, hb⟩
          exact hid ⟨le_antisymm hfc.1 ha, le_antisymm hb hfc.2⟩
        rw [if_pos hfc, if_neg hnc2, if_pos hfc]
        constructor
        · simp
        · intro _
          simp only
          have h1 : (if s1 > s2 then s1 else s2) = (if s2 > s1 then s2 else s1) := by
            split <;> split <;> omega
          have h2 : (if e1 < e2 then e1 else e2) = (if e2 < e1 then e2 else e1) := by
            split <;> split <;> omega
          rw [h1, h2]
      · rw [if_neg hfc]
        by_cases hsc : (s2 ≤ s1 ∧ e2 ≥ e1)
        · rw [if_pos hsc, if_pos hsc]
          simp
        · rw [if_neg hsc, if_neg hsc]
          by_cases hsc2 : (s1 ≤ s2 ∧ e1 ≥ e2)
          · exact absurd hsc2 hfc
          · rw [if_neg hsc2]
            simp
  · have hov2 : ¬((s2 ≤ s1 ∧ e2 ≥ s1) ∨ (s1 ≤ s2 ∧ e1 ≥ s2)) := fun h => hov h.symm
    rw [if_neg hov, if_neg hov2]
    constructor
    · constructor <;> intro h <;> simp at h <;> split at h <;> simp_all
    · intro h
      simp at h
      split at h <;> simp_all

theorem c7_witness :
    ((analyzeOverlap 0 30 10 20).otype = "first_contains_second" ↔
      (analyzeOverlap 10 20 0 30).otype = "second_contains_first") ∧
    ((analyzeOverlap 0 30 10 20).otype = "first_contains_second" →
      (analyzeOverlap 0 30 10 20).overlapSize
        = (analyzeOverlap 10 20 0 30).overlapSize) :=
  c7_containment_symmetry 0 30 10 20

/-- A valid `NetworkRange` in the sense of the spec data model: a
nonnegative base aligned to some prefix length `p ≤ 128`, with
`last = base + 2^(128−p) − 1`.  These are exactly the ranges produced by
`IPv6Utils.getNetworkInfo`. -/
def IsCIDR (s e : Int) : Prop :=
  0 ≤ s ∧ ∃ p : Nat, p ≤ 128 ∧ ((2 : Int) ^ (128 - p)) ∣ s ∧
    e + 1 = s + 2 ^ (128 - p)

/-- Rounding to two decimal places, JS style: `Math.round(x*100)/100`
(`Math.round` rounds half toward positive infinity, as does Mathlib
`round`). -/
def round2 (x : ℚ) : ℚ := ((round (x * 100) : Int) : ℚ) / 100

theorem dvd_add_le {a x y : Int} (ha : 0 < a) (hx : a ∣ x) (hy : a ∣ y)
    (hlt : x < y) : x + a ≤ y := by
  have h1 : a ∣ y - x := dvd_sub hy hx
  have h2 : a ≤ y - x := Int.le_of_dvd (by omega) h1
  omega

theorem cidr_nest_key {s t : ℕ} {x y : Int} (hst : s ≤ t)
    (hx : ((2 : Int) ^ s) ∣ x) (hy : ((2 : Int) ^ t) ∣ y)
    (h1 : x < y + 2 ^ t) (h2 : y < x + 2 ^ s) :
    y ≤ x ∧ x + 2 ^ s ≤ y + 2 ^ t := by
  have hys : ((2 : Int) ^ s) ∣ y := dvd_trans (pow_dvd_pow 2 hst) hy
  have hpos : (0 : Int) < 2 ^ s := by positivity
  have hyx : y ≤ x := by
    by_contra hcon
    push_neg at hcon
    have := dvd_add_le hpos hx hys hcon
    omega
  refine ⟨hyx, ?_⟩
  have hd : ((2 : Int) ^ s) ∣ (x - y) := dvd_sub hx hys
  rcases eq_or_lt_of_le (show (0 : Int) ≤ x - y by omega) with heq | hlt2
  · have hts : (2 : Int) ^ s ≤ 2 ^ t := pow_le_pow_right₀ (by norm_num) hst
    omega
  · have h2t : ((2 : Int) ^ s) ∣ (2 : Int) ^ t := pow_dvd_pow 2 hst
    have := dvd_add_le hpos hd h2t (by omega)
    omega

theorem analyzeOverlap_details_fields (s1 e1 s2 e2 : Int)
    (hcond : (s1 ≤ s2 ∧ e1 ≥ s2) ∨ (s2 ≤ s1 ∧ e2 ≥ s1)) :
    (analyzeOverlap s1 e1 s2 e2).overlapSize = min e1 e2 - max s1 s2 + 1 ∧
    (analyzeOverlap s1 e1 s2 e2).percentageOverlap
      = calculateOverlapPercentage s1 e1 s2 e2 (min e1 e2 - max s1 s2 + 1) := by
  have hmax : (if s1 > s2 then s1 else s2) = max s1 s2 := by split <;> omega
  have hmin : (if e1 < e2 then e1 else e2) = min e1 e2 := by split <;> omega
  unfold analyzeOverlap analyzeOverlapDetails
  rw [if_pos hcond]
  exact ⟨by simp only [hmax, hmin], by simp only [hmax, hmin]⟩

theorem calcPct_eq (s1 e1 s2 e2 ov : Int) :
    calculateOverlapPercentage s1 e1 s2 e2 ov
      = Int.tdiv (ov * 100)
          (if e1 - s1 + 1 < e2 - s2 + 1 then e1 - s1 + 1 else e2 - s2 + 1) := rfl

theorem round2_hundred : round2 (100 : ℚ) = 100 := by
  unfold round2
  rw [show ((100 : ℚ) * 100) = ((10000 : Int) : ℚ) by norm_num, round_intCast]
  norm_num

/-- C3: on every overlapping pair of valid CIDR ranges the reported
`percentageOfSmaller` equals `overlapSize*100 / min(sizeA, sizeB)` rounded
to two decimals, lies in `[0, 100]`, and equals 100 iff one range fully
contains the other.  (On aligned CIDR ranges an overlap always implies
containment, so the value is in fact always exactly 100.) -/
theorem c3_percentage (s1 e1 s2 e2 : Int) (hA : IsCIDR s1 e1)
    (hB : IsCIDR s2 e2)
    (hov : (analyzeOverlap s1 e1 s2 e2).hasOverlap = true) :
    let r := analyzeOverlap s1 e1 s2 e2
    ((r.percentageOverlap : ℚ) =
      round2 ((r.overlapSize : ℚ) * 100 /
        (min ((e1 : ℚ) - s1 + 1) ((e2 : ℚ) - s2 + 1)))) ∧
    (0 ≤ r.percentageOverlap ∧ r.percentageOverlap ≤ 100) ∧
    (r.percentageOverlap = 100 ↔
      ((s1 ≤ s2 ∧ e2 ≤ e1) ∨ (s2 ≤ s1 ∧ e1 ≤ e2))) := by
  intro r
  obtain ⟨hs1, p1, hp1, hdvd1, hsum1⟩ := hA
  obtain ⟨hs2, p2, hp2, hdvd2, hsum2⟩ := hB
  have hpa : (0 : Int) < 2 ^ (128 - p1) := by positivity
  have hpb : (0 : Int) < 2 ^ (128 - p2) := by positivity
  have hcond : ((s1 ≤ s2 ∧ e1 ≥ s2) ∨ (s2 ≤ s1 ∧ e2 ≥ s1)) := by
    have h := analyzeOverlap_hasOverlap s1 e1 s2 e2
    rw [hov] at h
    exact of_decide_eq_true h.symm
  have hi1 : s1 < s2 + 2 ^ (128 - p2) := by omega
  have hi2 : s2 < s1 + 2 ^ (128 - p1) := by omega
  obtain ⟨hf1, hf2⟩ := analyzeOverlap_details_fields s1 e1 s2 e2 hcond
  have hsz1 : e1 - s1 + 1 = 2 ^ (128 - p1) := by omega
  have hsz2 : e2 - s2 + 1 = 2 ^ (128 - p2) := by omega
  rcases le_total (128 - p1) (128 - p2) with hab | hba
  · obtain ⟨hle, hcontain⟩ := cidr_nest_key hab hdvd1 hdvd2 hi1 hi2
    have he12 : e1 ≤ e2 := by omega
    have h2ab : (2 : Int) ^ (128 - p1) ≤ 2 ^ (128 - p2) :=
      pow_le_pow_right₀ (by norm_num) hab
    have hsize : min e1 e2 - max s1 s2 + 1 = 2 ^ (128 - p1) := by
      rw [min_eq_left he12, max_eq_left hle]
      omega
    have hsmaller :
        (if e1 - s1 + 1 < e2 - s2 + 1 then e1 - s1 + 1 else e2 - s2 + 1)
          = 2 ^ (128 - p1) := by
      split <;> omega
    have hpct : r.percentageOverlap = 100 := by
      rw [hf2, calcPct_eq, hsize, hsmaller]
      exact Int.mul_tdiv_cancel_left 100 (by omega)
    have hosz : r.overlapSize = 2 ^ (128 - p1) := by rw [hf1, hsize]
    refine ⟨?_, ⟨by omega, by omega⟩, ?_⟩
    · have hq1 : ((e1 : ℚ) - (s1 : ℚ) + 1) = (2 : ℚ) ^ (128 - p1) := by
        exact_mod_cast hsz1
      have hq2 : ((e2 : ℚ) - (s2 : ℚ) + 1) = (2 : ℚ) ^ (128 - p2) := by
        exact_mod_cast hsz2
      have hqab : (2 : ℚ) ^ (128 - p1) ≤ 2 ^ (128 - p2) :=
        pow_le_pow_right₀ (by norm_num) hab
      rw [hpct, hosz, hq1, hq2, min_eq_left hqab]
      push_cast
      rw [mul_comm, mul_div_assoc,
        div_self (by positivity : ((2 : ℚ) ^ (128 - p1)) ≠ 0), mul_one,
        round2_hundred]
    · rw [hpct]
      exact ⟨fun _ => Or.inr ⟨hle, he12⟩, fun _ => rfl⟩
  · obtain ⟨hle, hcontain⟩ := cidr_nest_key hba hdvd2 hdvd1 hi2 hi1
    have he21 : e2 ≤ e1 := by omega
    have h2ab : (2 : Int) ^ (128 - p2) ≤ 2 ^ (128 - p1) :=
      pow_le_pow_right₀ (by norm_num) hba
    have hsize : min e1 e2 - max s1 s2 + 1 = 2 ^ (128 - p2) := by
      rw [min_eq_right he21, max_eq_right hle]
      omega
    have hsmaller :
        (if e1 - s1 + 1 < e2 - s2 + 1 then e1 - s1 + 1 else e2 - s2 + 1)
          = 2 ^ (128 - p2) := by
      split <;> omega
    have hpct : r.percentageOverlap = 100 := by
      rw [hf2, calcPct_eq, hsize, hsmaller]
      exact Int.mul_tdiv_cancel_left 100 (by omega)
    have hosz : r.overlapSize = 2 ^ (128 - p2) := by rw [hf1, hsize]
    refine ⟨?_, ⟨by omega, by omega⟩, ?_⟩
    · have hq1 : ((e1 : ℚ) - (s1 : ℚ) + 1) = (2 : ℚ) ^ (128 - p1) := by
        exact_mod_cast hsz1
      have hq2 : ((e2 : ℚ) - (s2 : ℚ) + 1) = (2 : ℚ) ^ (128 - p2) := by
        exact_mod_cast hsz2
      have hqab : (2 : ℚ) ^ (128 - p2) ≤ 2 ^ (128 - p1) :=
        pow_le_pow_right₀ (by norm_num) hba
      rw [hpct, hosz, hq1, hq2, min_eq_right hqab]
      push_cast
      rw [mul_comm, mul_div_assoc,
        div_self (by positivity : ((2 : ℚ) ^ (128 - p2)) ≠ 0), mul_one,
        round2_hundred]
    · rw [hpct]
      exact ⟨fun _ => Or.inl ⟨hle, he21⟩, fun _ => rfl⟩

theorem c3_witness :
    (IsCIDR 0 3 ∧ IsCIDR 0 1 ∧ (analyzeOverlap 0 3 0 1).hasOverlap = true) ∧
      (((analyzeOverlap 0 3 0 1).percentageOverlap : ℚ) =
        round2 (((analyzeOverlap 0 3 0 1).overlapSize : ℚ) * 100 /
          (min ((3 : ℚ) - 0 + 1) ((1 : ℚ) - 0 + 1))) ∧
        (0 ≤ (analyzeOverlap 0 3 0 1).percentageOverlap ∧
          (analyzeOverlap 0 3 0 1).percentageOverlap ≤ 100) ∧
        ((analyzeOverlap 0 3 0 1).percentageOverlap = 100 ↔
          (((0 : Int) ≤ 0 ∧ (1 : Int) ≤ 3) ∨ ((0 : Int) ≤ 0 ∧ (3 : Int) ≤ 1)))) := by
  have hA : IsCIDR 0 3 := ⟨by decide, 126, by decide, ⟨0, by decide⟩, by decide⟩
  have hB : IsCIDR 0 1 := ⟨by decide, 127, by decide, ⟨0, by decide⟩, by decide⟩
  exact ⟨⟨hA, hB, by decide⟩, c3_percentage 0 3 0 1 hA hB (by decide)⟩

/-- A cache entry, `{ value, timestamp: Date.now() }`. -/
structure CacheEntry (V : Type) where
  value : V
  timestamp : Nat
deriving DecidableEq

/-- A JS `Map` used as a cache: an association list in insertion order. -/
abbrev CacheMap (K V : Type) := List (K × CacheEntry V)

/-- `Map.prototype.set`: update in place when the key is present (the entry
keeps its position in iteration order), otherwise append. -/
def mapSet {K V : Type} [DecidableEq K] (m : CacheMap K V) (k : K)
    (e : CacheEntry V) : CacheMap K V :=
  if m.any (fun kv => kv.1 = k) then
    m.map (fun kv => if kv.1 = k then (k, e) else kv)
  else m ++ [(k, e)]

/-- `cleanExpiredCache` (identical in both classes): delete every entry
with `now - timestamp > CACHE_TTL`.  JS numbers can go negative where Nat
subtraction truncates at 0, but both sides then keep the entry. -/
def cleanExpiredCache {K V : Type} (ttl now : Nat) (m : CacheMap K V) :
    CacheMap K V :=
  m.filter (fun kv => ¬ (ttl < now - kv.2.timestamp))

/-- Stable insertion by write timestamp (ascending). -/
def insertByTs {K V : Type} (x : K × CacheEntry V) :
    CacheMap K V → CacheMap K V
  | [] => [x]
  | y :: ys =>
    if y.2.timestamp < x.2.timestamp then y :: insertByTs x ys
    else x :: y :: ys

/-- Stable sort by write timestamp, modelling
`entries.sort((a, b) => a[1].timestamp - b[1].timestamp)` (ES2019
`Array.prototype.sort` is stable). -/
def sortByTs {K V : Type} : CacheMap K V → CacheMap K V
  | [] => []
  | x :: xs => insertByTs x (sortByTs xs)

theorem insertByTs_perm {K V : Type} (x : K × CacheEntry V)
    (l : CacheMap K V) : (insertByTs x l).Perm (x :: l) := by
  induction l with
  | nil => exact List.Perm.refl _
  | cons y ys ih =>
    unfold insertByTs
    split
    · exact (ih.cons y).trans (List.Perm.swap x y ys)
    · exact List.Perm.refl _

theorem sortByTs_perm {K V : Type} (m : CacheMap K V) :
    (sortByTs m).Perm m := by
  induction m with
  | nil => exact List.Perm.refl _
  | cons x xs ih => exact (insertByTs_perm x (sortByTs xs)).trans (ih.cons x)

theorem insertByTs_sorted {K V : Type} (x : K × CacheEntry V)
    (l : CacheMap K V)
    (h : l.Pairwise (fun a b => a.2.timestamp ≤ b.2.timestamp)) :
    (insertByTs x l).Pairwise (fun a b => a.2.timestamp ≤ b.2.timestamp) := by
  induction l with
  | nil => simp [insertByTs]
  | cons y ys ih =>
    rcases List.pairwise_cons.mp h with ⟨hy, hys⟩
    unfold insertByTs
    split
    · rename_i hlt
      refine List.pairwise_cons.mpr ⟨?_, ih hys⟩
      intro z hz
      rcases List.mem_cons.mp ((insertByTs_perm x ys).mem_iff.mp hz) with rfl | hzys
      · omega
      · exact hy z hzys
    · rename_i hge
      refine List.pairwise_cons.mpr ⟨?_, h⟩
      intro z hz
      rcases List.mem_cons.mp hz with rfl | hzys
      · omega
      · exact le_trans (by omega) (hy z hzys)

theorem sortByTs_sorted {K V : Type} (m : CacheMap K V) :
    (sortByTs m).Pairwise (fun a b => a.2.timestamp ≤ b.2.timestamp) := by
  induction m with
  | nil => simp [sortByTs]
  | cons x xs ih => exact insertByTs_sorted x (sortByTs xs) ih

/-- The 30% eviction step of `IPv6Utils.setToCache`: sort the entries by
write timestamp, take the first `Math.floor(CACHE_MAX_SIZE * 0.3) = 300`
(`1000 * 0.3` is exactly `300` in IEEE doubles) and delete those keys;
deletion keeps the relative order of the surviving entries. -/
def evictOldest30 {K V : Type} [DecidableEq K] (m1 : CacheMap K V) :
    CacheMap K V :=
  m1.filter (fun kv =>
    ¬ (((sortByTs m1).take 300).map Prod.fst).contains kv.1)

/-- `IPv6Utils.setToCache` (CACHE_MAX_SIZE = 1000, CACHE_TTL = 300000).
The JS method mutates and then calls `set` once at the end; the three
branches below spell out the same state transition. -/
def utilSetToCache {K V : Type} [DecidableEq K] (now : Nat)
    (m : CacheMap K V) (k : K) (v : V) : CacheMap K V :=
  if 1000 ≤ m.length then
    if 1000 ≤ (cleanExpiredCache 300000 now m).length then
      mapSet (evictOldest30 (cleanExpiredCache 300000 now m)) k ⟨v, now⟩
    else mapSet (cleanExpiredCache 300000 now m) k ⟨v, now⟩
  else mapSet m k ⟨v, now⟩

/-- `OverlapEngine.setToCache` (CACHE_MAX_SIZE = 500): when still at
capacity after the purge it deletes `cache.keys().next().value`, i.e. the
single first entry in insertion order. -/
def ovSetToCache {K V : Type} [DecidableEq K] (now : Nat)
    (m : CacheMap K V) (k : K) (v : V) : CacheMap K V :=
  if 500 ≤ m.length then
    if 500 ≤ (cleanExpiredCache 300000 now m).length then
      mapSet ((cleanExpiredCache 300000 now m).drop 1) k ⟨v, now⟩
    else mapSet (cleanExpiredCache 300000 now m) k ⟨v, now⟩
  else mapSet m k ⟨v, now⟩

theorem mem_mapSet {K V : Type} [DecidableEq K] (m : CacheMap K V) (k : K)
    (e : CacheEntry V) : ∀ kv ∈ mapSet m k e, kv.1 = k ∨ kv ∈ m := by
  intro kv hkv
  unfold mapSet at hkv
  split at hkv
  · rcases List.mem_map.mp hkv with ⟨x, hx, hmap⟩
    by_cases hxk : x.1 = k
    · rw [if_pos hxk] at hmap
      left
      rw [← hmap]
    · rw [if_neg hxk] at hmap
      right
      rw [← hmap]
      exact hx
  · rcases List.mem_append.mp hkv with h | h
    · right
      exact h
    · left
      simp only [List.mem_singleton] at h
      rw [h]

/-- C9 (amended): at capacity both caches purge TTL-expired entries first;
if still at capacity afterwards, `IPv6Utils.setToCache` removes the oldest
`floor(CACHE_MAX_SIZE * 0.3) = 300` entries by write timestamp before the
new entry is inserted, while `OverlapEngine.setToCache` removes only the
single first-inserted entry (not 30%). -/
theorem c9_eviction {K V : Type} [DecidableEq K] (now : Nat)
    (m : CacheMap K V) (k : K) (v : V) (hcap : 1000 ≤ m.length)
    (hstill : 1000 ≤ (cleanExpiredCache 300000 now m).length) :
    (utilSetToCache now m k v
      = mapSet (evictOldest30 (cleanExpiredCache 300000 now m)) k ⟨v, now⟩) ∧
    (∀ k' ∈ ((sortByTs (cleanExpiredCache 300000 now m)).take 300).map
        Prod.fst, k' ≠ k → ∀ kv ∈ utilSetToCache now m k v, kv.1 ≠ k') ∧
    (∀ (m2 : CacheMap K V), 500 ≤ m2.length →
      500 ≤ (cleanExpiredCache 300000 now m2).length →
      ovSetToCache now m2 k v
        = mapSet ((cleanExpiredCache 300000 now m2).drop 1) k ⟨v, now⟩) := by
  have hutil : utilSetToCache now m k v
      = mapSet (evictOldest30 (cleanExpiredCache 300000 now m)) k ⟨v, now⟩ := by
    unfold utilSetToCache
    rw [if_pos hcap, if_pos hstill]
  refine ⟨hutil, ?_, ?_⟩
  · intro k' hk' hne kv hkv
    rw [hutil] at hkv
    rcases mem_mapSet _ _ _ kv hkv with h | h
    · rw [h]
      exact fun hc => hne hc.symm
    · unfold evictOldest30 at h
      have hnotin := List.of_mem_filter h
      have hni : kv.1 ∉ ((sortByTs (cleanExpiredCache 300000 now m)).take
          300).map Prod.fst := by simpa using hnotin
      intro heq
      apply hni
      rw [heq]
      exact hk'
  · intro m2 h2 h3
    unfold ovSetToCache
    rw [if_pos h2, if_pos h3]

/-- A full IPv6Utils cache: 1000 unexpired entries, ascending timestamps. -/
def utilDemoCache : CacheMap Nat Nat :=
  (List.range 1000).map (fun i => (i, ⟨0, 1700000 + i⟩))

theorem c9_witness :
    ((1000 ≤ utilDemoCache.length) ∧
      (1000 ≤ (cleanExpiredCache 300000 2000000 utilDemoCache).length)) ∧
    utilSetToCache 2000000 utilDemoCache 5000 7
      = mapSet (evictOldest30 (cleanExpiredCache 300000 2000000
          utilDemoCache)) 5000 ⟨7, 2000000⟩ :=
  ⟨⟨by decide, by decide⟩,
    (c9_eviction 2000000 utilDemoCache 5000 7 (by decide) (by decide)).1⟩

/-- A full OverlapEngine cache: 500 unexpired entries with strictly
increasing write timestamps. -/
def ovDemoCache : CacheMap Nat Nat :=
  (List.range 500).map (fun i => (i, ⟨0, 1000000 + i⟩))

/-- C9 counterexample: writing to the full (and unexpired) OverlapEngine
cache removes only a single entry — key 1 is among the oldest 30% by
write timestamp (the oldest 150 of 500) yet survives the write, and the
cache still holds 500 entries afterwards, so the claimed 30% eviction does
not happen on this cache. -/
theorem c9_counterexample :
    (500 ≤ ovDemoCache.length) ∧
    (500 ≤ (cleanExpiredCache 300000 1300000 ovDemoCache).length) ∧
    ((((sortByTs (cleanExpiredCache 300000 1300000 ovDemoCache)).take
        150).map Prod.fst).contains 1 = true) ∧
    ((ovSetToCache 1300000 ovDemoCache 9999 7).any
      (fun kv => kv.1 == 1) = true) ∧
    ((ovSetToCache 1300000 ovDemoCache 9999 7).length = 500) := by
  refine ⟨by decide, by decide, by decide, by decide, by decide⟩

/-- Test for `[0-9a-fA-F]`. -/
def isHexDigit (c : Char) : Bool :=
  decide (('0' ≤ c ∧ c ≤ '9') ∨ ('a' ≤ c ∧ c ≤ 'f') ∨ ('A' ≤ c ∧ c ≤ 'F'))

/-- The HEX_GROUP pattern `^[0-9a-fA-F]{1,4}$`. -/
def isHexGroup (g : List Char) : Bool :=
  decide (1 ≤ g.length ∧ g.length ≤ 4) && g.all isHexDigit

def splitChAux (sep : Char) : List Char → List Char → List (List Char)
  | [], cur => [cur.reverse]
  | c :: rest, cur =>
    if c = sep then cur.reverse :: splitChAux sep rest []
    else splitChAux sep rest (c :: cur)

/-- `String.prototype.split` with a one-character separator. -/
def splitCh (sep : Char) (l : List Char) : List (List Char) :=
  splitChAux sep l []

def splitDCAux : List Char → List Char → List (List Char)
  | [], cur => [cur.reverse]
  | ':' :: ':' :: rest, cur => cur.reverse :: splitDCAux rest []
  | c :: rest, cur => splitDCAux rest (c :: cur)

/-- `String.prototype.split('::')`: left-to-right scan for non-overlapping
occurrences of two consecutive colons. -/
def splitDC (l : List Char) : List (List Char) := splitDCAux l []

/-- `String.prototype.includes('::')`. -/
def containsDC : List Char → Bool
  | [] => false
  | ':' :: ':' :: _ => true
  | _ :: rest => containsDC rest

/-- `String.prototype.includes(':::')`. -/
def containsTC : List Char → Bool
  | [] => false
  | ':' :: ':' :: ':' :: _ => true
  | _ :: rest => containsTC rest

/-- Number of matches of the global regex `/::/g` (non-overlapping, left
to right). -/
def countDC : List Char → Nat
  | [] => 0
  | ':' :: ':' :: rest => countDC rest + 1
  | _ :: rest => countDC rest

/-- `group.padStart(4, '0')`. -/
def pad4 (g : List Char) : List Char := List.replicate (4 - g.length) '0' ++ g

/-- `replace(/^\[|\]$/g, '')`: drop one leading `[` and one trailing `]`. -/
def stripBrackets (l : List Char) : List Char :=
  let l1 := if l.head? = some '[' then l.tail else l
  if l1.getLast? = some ']' then l1.dropLast else l1

/-- `g.replace(/^0+/, '') || '0'`. -/
def stripZeros (g : List Char) : List Char :=
  let r := g.dropWhile (fun c => c = '0')
  if r.isEmpty then ['0'] else r

/-- The textual all-zero group of an expanded address. -/
def zero4 : List Char := ['0', '0', '0', '0']

/-- One side of the `::` split:
`part ? part.split(':').filter(g => g !== '') : []`. -/
def partGroups (p : List Char) : List (List Char) :=
  if p.isEmpty then [] else (splitCh ':' p).filter (fun g => !g.isEmpty)

/-- `IPv6Utils.validateFullFormat`. -/
def validateFullFormat (address : List Char) : Bool :=
  let groups := splitCh ':' address
  decide (groups.length = 8) && groups.all isHexGroup

/-- `IPv6Utils.validateCompressedFormat`. -/
def validateCompressedFormat (address : List Char) : Bool :=
  let parts := splitDC address
  if parts.length ≠ 2 then false
  else
    let before := partGroups (parts.getD 0 [])
    let after := partGroups (parts.getD 1 [])
    decide (before.length + after.length ≤ 8) &&
      (before ++ after).all isHexGroup

/-- `IPv6Utils.isValidFormat`: character class `/^[0-9a-fA-F:]+$/`, at most
one `::` match, no `:::`, then the per-shape validator. -/
def isValidFormat (address : List Char) : Bool :=
  if address.isEmpty then false
  else if ¬ address.all (fun c => isHexDigit c || c = ':') then false
  else if 1 < countDC address then false
  else if containsTC address then false
  else if containsDC address then validateCompressedFormat address
  else validateFullFormat address

/-- `IPv6Utils.performExpansion`; `none` models a thrown error.  The JS
code tests HEX_GROUP inside the final `map` before padding; here the test
is pulled out before the (pure) padding map. -/
def performExpansion (address : List Char) : Option (List Char) :=
  let addr := stripBrackets address
  if ¬ containsDC addr then
    let groups := splitCh ':' addr
    if groups.length ≠ 8 then none
    else some (List.intercalate [':'] (groups.map pad4))
  else
    let parts := splitDC addr
    let before := partGroups (parts.getD 0 [])
    let after := partGroups (parts.getD 1 [])
    if 8 < before.length + after.length then none
    else
      let allGroups := before ++
        List.replicate (8 - (before.length + after.length)) zero4 ++ after
      if allGroups.all isHexGroup then
        some (List.intercalate [':'] (allGroups.map pad4))
      else none

/-- The zero-run scan of `performCompression`: a fold over `i < 8` with
state `(bestStart, bestLength, currentStart, currentLength)` and the JS
sentinel `-1`, followed by the final-run check. -/
def runLoop (zs : List Bool) : Int × Int :=
  let fin := (List.range 8).foldl
    (fun (st : Int × Int × Int × Int) (i : Nat) =>
      let (bestStart, bestLength, currentStart, currentLength) := st
      if zs.getD i false then
        (bestStart, bestLength,
          if currentStart = -1 then (i : Int) else currentStart,
          currentLength + 1)
      else
        if bestLength < currentLength then
          (currentStart, currentLength, -1, 0)
        else (bestStart, bestLength, -1, 0))
    ((-1 : Int), (0 : Int), (-1 : Int), (0 : Int))
  let (bestStart, bestLength, currentStart, currentLength) := fin
  if bestLength < currentLength then (currentStart, currentLength)
  else (bestStart, bestLength)

/-- `IPv6Utils.performCompression`.  On an expansion error the `catch`
returns the input unchanged.  The loop reads `groups[i] === '0000'` only
through its truth value, factored here into `zs`. -/
def performCompression (address : List Char) : List Char :=
  match performExpansion address with
  | none => address
  | some expanded =>
    let groups := splitCh ':' expanded
    let zs := (List.range 8).map (fun i => groups.getD i [] == zero4)
    let best := runLoop zs
    if best.2 < 2 then
      List.intercalate [':'] (groups.map stripZeros)
    else
      let before := (groups.take best.1.toNat).map stripZeros
      let after := (groups.drop (best.1.toNat + best.2.toNat)).map stripZeros
      if before.isEmpty && after.isEmpty then [':', ':']
      else if before.isEmpty then
        ':' :: ':' :: List.intercalate [':'] after
      else if after.isEmpty then
        List.intercalate [':'] before ++ [':', ':']
      else
        List.intercalate [':'] before ++ ':' :: ':' ::
          List.intercalate [':'] after

/-- Numeric value of a hex digit (both cases). -/
def hexDigitVal (c : Char) : Nat :=
  if '0' ≤ c ∧ c ≤ '9' then c.toNat - 48
  else if 'a' ≤ c ∧ c ≤ 'f' then c.toNat - 87
  else if 'A' ≤ c ∧ c ≤ 'F' then c.toNat - 55
  else 0

/-- Value of a hex digit string. -/
def hexVal (l : List Char) : Nat :=
  l.foldl (fun acc c => acc * 16 + hexDigitVal c) 0

/-- `IPv6Utils.ipv6ToBigInt`: expand, drop the colons, `BigInt('0x'+s)`.
`BigInt` would throw on an empty or non-hex string (the check is kept even
though expansion output is always 32 hex digits); `none` models the
re-thrown error. -/
def ipv6ToBigInt (address : List Char) : Option Nat :=
  match performExpansion address with
  | none => none
  | some expanded =>
    let hexString := expanded.filter (fun c => c != ':')
    if hexString.isEmpty || ¬ hexString.all isHexDigit then none
    else some (hexVal hexString)

/-- The regex `/.{4}/g`: chunks of 4, an incomplete tail is dropped. -/
def chunk4 : List Char → List (List Char)
  | c1 :: c2 :: c3 :: c4 :: rest => [c1, c2, c3, c4] :: chunk4 rest
  | _ => []

/-- `IPv6Utils.bigIntToIPv6` on a nonnegative BigInt: `toString(16)`
(lowercase, which is `Nat.toDigits 16`), `padStart(32, '0')`, groups of 4
joined with `:`. -/
def bigIntToIPv6 (n : Nat) : List Char :=
  let hexStr := Nat.toDigits 16 n
  let padded := List.replicate (32 - hexStr.length) '0' ++ hexStr
  List.intercalate [':'] (chunk4 padded)

/-- `IPv6Utils.calculateNetworkMask`; `none` is the out-of-range throw. -/
def calculateNetworkMask (prefixLen : Nat) : Option Nat :=
  if 128 < prefixLen then none
  else if prefixLen = 0 then some 0
  else some (((1 <<< prefixLen) - 1) <<< (128 - prefixLen))

/-- JS `parseInt` for the fragments that occur here (no sign or whitespace
forms arise): value of the leading run of decimal digits, `none` for NaN. -/
def parseIntOpt (l : List Char) : Option Nat :=
  let ds := l.takeWhile Char.isDigit
  if ds.isEmpty then none
  else some (ds.foldl (fun acc c => acc * 10 + (c.toNat - 48)) 0)

/-- `String.prototype.trim`. -/
def jsTrim (l : List Char) : List Char :=
  ((l.dropWhile (fun c => c.isWhitespace)).reverse.dropWhile
    (fun c => c.isWhitespace)).reverse

/-- Match of the greedy `/^(.+)\/(\d{1,3})$/`: only the last `/` can
produce an all-digit 1–3 character suffix, with a nonempty part before
it. -/
def matchCIDR (l : List Char) : Option (List Char × List Char) :=
  let parts := splitCh '/' l
  if parts.length < 2 then none
  else
    let lastPart := parts.getLastD []
    let beforeJoin := List.intercalate ['/'] parts.dropLast
    if beforeJoin.isEmpty then none
    else if decide (1 ≤ lastPart.length ∧ lastPart.length ≤ 3) &&
        lastPart.all Char.isDigit then
      some (beforeJoin, lastPart)
    else none

def matchZoneAux : List Char → List Char → Option (List Char × List Char)
  | [], _ => none
  | c :: rest, acc =>
    match matchZoneAux rest (acc ++ [c]) with
    | some r => some r
    | none =>
      if c = '%' ∧ ¬ acc.isEmpty ∧ ¬ rest.isEmpty then some (acc, rest)
      else none

/-- Match of the greedy `/^(.+)%(.+)$/`: split at the last `%` that leaves
both sides nonempty. -/
def matchZone (l : List Char) : Option (List Char × List Char) :=
  matchZoneAux l []

/-- The expanded loopback text compared in `getAddressType`. -/
def expandedLoopback : List Char :=
  "0000:0000:0000:0000:0000:0000:0000:0001".data

/-- The expanded unspecified-address text compared in `getAddressType`. -/
def expandedUnspecified : List Char :=
  "0000:0000:0000:0000:0000:0000:0000:0000".data

/-- `IPv6Utils.getAddressType`; the `catch` yields "Unknown".  All
`startsWith` tests run on the expanded text, case-sensitively, exactly as
in the JS. -/
def getAddressType (address : List Char) : String :=
  match performExpansion address with
  | none => "Unknown"
  | some expanded =>
    if expanded = expandedLoopback then "Loopback"
    else if expanded = expandedUnspecified then "Unspecified"
    else if List.isPrefixOf "fe80:".data expanded then "Link-Local"
    else if List.isPrefixOf "ff".data expanded then "Multicast"
    else if List.isPrefixOf "fc".data expanded ||
        List.isPrefixOf "fd".data expanded then "Unique Local"
    else if List.isPrefixOf "2001:0db8:".data expanded then "Documentation"
    else if List.isPrefixOf "2001:0000:".data expanded then "Teredo"
    else if List.isPrefixOf "2002:".data expanded then "6to4"
    else "Global Unicast"

/-- `IPv6Utils.getMulticastScope` (`expanded.charAt(3)`). -/
def getMulticastScope (address : List Char) : String :=
  match performExpansion address with
  | none => "Unknown"
  | some expanded =>
    let scopeField := expanded.getD 3 ' '
    if scopeField = '0' then "Reserved"
    else if scopeField = '1' then "Interface-Local"
    else if scopeField = '2' then "Link-Local"
    else if scopeField = '3' then "Reserved"
    else if scopeField = '4' then "Admin-Local"
    else if scopeField = '5' then "Site-Local"
    else if scopeField = '8' then "Organization-Local"
    else if scopeField = 'e' then "Global"
    else "Unknown"

/-- `IPv6Utils.getAddressScope` (the `scopeMap` lookup). -/
def getAddressScope (address : List Char) : String :=
  let t := getAddressType address
  if t = "Loopback" then "Host"
  else if t = "Unspecified" then "None"
  else if t = "Link-Local" then "Link"
  else if t = "Multicast" then getMulticastScope address
  else if t = "Unique Local" then "Organization"
  else if t = "Documentation" then "Documentation"
  else if t = "Teredo" then "Global"
  else if t = "6to4" then "Global"
  else if t = "Global Unicast" then "Global"
  else "Unknown"

/-- Successful result of `IPv6Utils.performValidation` (the JS `valid`,
`original` fields are implied; the JS field `prefix` is `prefixLen` and
`type` is `addrType`). -/
structure VInfo where
  cleanAddress : List Char
  prefixLen : Option Nat
  zoneId : Option (List Char)
  expanded : List Char
  compressed : List Char
  addrType : String
  scope : String
deriving DecidableEq

/-- `IPv6Utils.performValidation`; `none` is the thrown error that
`validateIPv6` turns into `{valid:false}`.  The digits matched by
`\d{1,3}` always parse, so `parseInt` is totalised with `getD 0`;
`expandAddress` cannot fail once `isValidFormat` holds (the JS relies on
the same fact), so its `Option` is discharged with `getD []`. -/
def performValidation (address : List Char) : Option VInfo :=
  let step1 : Option (List Char × Option Nat) :=
    match matchCIDR address with
    | some (clean, digits) =>
      let pl := (parseIntOpt digits).getD 0
      if 128 < pl then none else some (clean, some pl)
    | none => some (address, none)
  match step1 with
  | none => none
  | some (clean0, pl) =>
    let zstep : List Char × Option (List Char) :=
      match matchZone clean0 with
      | some (c, z) => (c, some z)
      | none => (clean0, none)
    let clean := stripBrackets zstep.1
    if isValidFormat clean then
      some { cleanAddress := clean
             prefixLen := pl
             zoneId := zstep.2
             expanded := (performExpansion clean).getD []
             compressed := performCompression clean
             addrType := getAddressType clean
             scope := getAddressScope clean }
    else none

/-- `IPv6Utils.validateIPv6`: the falsy-argument guard, `trim`, then
`performValidation`.  The memoising cache wrapper is omitted; it is
value-transparent (see the cache section). -/
def validateIPv6 (address : List Char) : Option VInfo :=
  if address.isEmpty then none
  else performValidation (jsTrim address)

/-- Numeric content of `IPv6Utils.getNetworkInfo`'s result (the formatted
string fields of the JS object are derived from these). -/
structure NetInfo where
  networkBigInt : Nat
  broadcastBigInt : Nat
  prefixLen : Nat
deriving DecidableEq

/-- `IPv6Utils.getNetworkInfo`; `none` models every thrown path: invalid
CIDR, missing prefix part (`parseInt(undefined)` is NaN and `BigInt(NaN)`
throws), address conversion failure, mask out of range. -/
def getNetworkInfo (cidr : List Char) : Option NetInfo :=
  match validateIPv6 cidr with
  | none => none
  | some _ =>
    let parts := splitCh '/' cidr
    let addressPart := parts.getD 0 []
    let prefixStr := parts.getD 1 []
    match parseIntOpt prefixStr with
    | none => none
    | some pl =>
      match ipv6ToBigInt addressPart with
      | none => none
      | some ip =>
        match calculateNetworkMask pl with
        | none => none
        | some mask =>
          let network := ip &&& mask
          some { networkBigInt := network
                 broadcastBigInt := network + (1 <<< (128 - pl)) - 1
                 prefixLen := pl }

/-- `OverlapEngine.validateAndGetNetworkInfo`: requires a `/`, a valid
CIDR per `validateIPv6`, then the network info. -/
def validateAndGetNetworkInfo (cidr : List Char) : Option NetInfo :=
  if ¬ cidr.any (fun c => c = '/') then none
  else
    match validateIPv6 cidr with
    | none => none
    | some _ => getNetworkInfo cidr

/-- Content of a `checkOverlapAdvanced` result.  `hasOverlapO = none`
models the JS error result `{hasOverlap: null, error}` (whose `overlapType`
and `severity` are absent; the placeholders here are never read on that
path). -/
structure AdvResult where
  hasOverlapO : Option Bool
  overlapType : String
  severity : Severity
deriving DecidableEq

/-- `OverlapEngine.checkOverlapAdvanced` without the cache and the
performance bookkeeping (the cache only memoises the same value). -/
def checkOverlapAdvanced (cidr1 cidr2 : List Char) : AdvResult :=
  if cidr1.isEmpty || cidr2.isEmpty then ⟨none, "", SEVERITY_NONE⟩
  else
    match validateAndGetNetworkInfo cidr1, validateAndGetNetworkInfo cidr2 with
    | some n1, some n2 =>
      let a := analyzeOverlap (n1.networkBigInt : Int)
        (n1.broadcastBigInt : Int) (n2.networkBigInt : Int)
        (n2.broadcastBigInt : Int)
      ⟨some a.hasOverlap, a.otype, a.severity⟩
    | _, _ => ⟨none, "", SEVERITY_NONE⟩

/-- `OverlapEngine.checkOverlap`: the simple interface projects the same
fields. -/
def checkOverlap (cidr1 cidr2 : List Char) : AdvResult :=
  checkOverlapAdvanced cidr1 cidr2

/-- `(1n << 128n) - 1n`. -/
def maxIPv6 : Nat := (1 <<< 128) - 1

/-- `OverlapEngine.generateSuggestion(lanPrefix, wanPrefix)`.  The JS
function reads only `wanPrefix` — the second argument, the anchor: the
prefix length driving the increment, the candidate bases and the final
overlap test all come from `wanPrefix`; `lanPrefix` is destructured and
never used.  `none` models `return null` and the `catch` path.  The
`128 < prefixLength` guard models the throw of `1n << negative` (it is
unreachable once `getNetworkInfo` succeeded). -/
def generateSuggestion (lanPrefix wanPrefix : List Char) :
    Option (List Char) :=
  match getNetworkInfo wanPrefix with
  | none => none
  | some wanNetwork =>
    match parseIntOpt ((splitCh '/' wanPrefix).getD 1 []) with
    | none => none
    | some prefixLength =>
      if 128 < prefixLength then none
      else
        let increment := 1 <<< (128 - prefixLength)
        let firstCandidate := wanNetwork.networkBigInt + increment
        let suggestedBigInt : Option Nat :=
          if maxIPv6 < firstCandidate then
            if (wanNetwork.networkBigInt : Int) - (increment : Int) < 0 then
              none
            else some (wanNetwork.networkBigInt - increment)
          else some firstCandidate
        match suggestedBigInt with
        | none => none
        | some s =>
          let suggestion := performCompression (bigIntToIPv6 s) ++
            '/' :: Nat.toDigits 10 prefixLength
          if (checkOverlap suggestion wanPrefix).hasOverlapO ≠ some true then
            some suggestion
          else none

theorem getNetworkInfo_parse {cidr : List Char} {info : NetInfo}
    (h : getNetworkInfo cidr = some info) :
    parseIntOpt ((splitCh '/' cidr).getD 1 []) = some info.prefixLen ∧
      info.prefixLen ≤ 128 := by
  unfold getNetworkInfo at h
  cases hv : validateIPv6 cidr with
  | none => rw [hv] at h; exact absurd h (by simp)
  | some v =>
    rw [hv] at h
    simp only [] at h
    cases hp : parseIntOpt ((splitCh '/' cidr).getD 1 []) with
    | none => rw [hp] at h; exact absurd h (by simp)
    | some pl =>
      rw [hp] at h
      simp only [] at h
      cases hi : ipv6ToBigInt ((splitCh '/' cidr).getD 0 []) with
      | none => rw [hi] at h; exact absurd h (by simp)
      | some ip =>
        rw [hi] at h
        simp only [] at h
        cases hm : calculateNetworkMask pl with
        | none => rw [hm] at h; exact absurd h (by simp)
        | some mask =>
          rw [hm] at h
          have hple : pl ≤ 128 := by
            by_contra hc
            unfold calculateNetworkMask at hm
            rw [if_pos (by omega)] at hm
            exact absurd hm (by simp)
          simp only [Option.some.injEq] at h
          rw [← h]
          exact ⟨rfl, hple⟩

/-- C4 (amended): the suggestion operation is a pure (hence deterministic)
two-attempt procedure whose increment is `2^(128 − prefix length of the
ANCHOR range)` — the second argument `wanPrefix`, whose base also seeds
the candidates; the conflicting range (first argument) is never read.  It
first tries `anchor.base + increment`; only when that exceeds `2^128 − 1`
does it try `anchor.base − increment`, returning null when that is below
0; the surviving candidate is validated against the anchor via the overlap
classifier, null if it still overlaps; no third candidate exists. -/
theorem c4_two_attempts (lanPrefix wanPrefix : List Char) (info : NetInfo)
    (h : getNetworkInfo wanPrefix = some info) :
    generateSuggestion lanPrefix wanPrefix =
      (if maxIPv6 < info.networkBigInt + (1 <<< (128 - info.prefixLen)) then
        if (info.networkBigInt : Int)
            - ((1 <<< (128 - info.prefixLen) : Nat) : Int) < 0 then none
        else
          let suggestion := performCompression (bigIntToIPv6
            (info.networkBigInt - (1 <<< (128 - info.prefixLen)))) ++
            '/' :: Nat.toDigits 10 info.prefixLen
          if (checkOverlap suggestion wanPrefix).hasOverlapO ≠ some true
          then some suggestion else none
      else
        let suggestion := performCompression (bigIntToIPv6
          (info.networkBigInt + (1 <<< (128 - info.prefixLen)))) ++
          '/' :: Nat.toDigits 10 info.prefixLen
        if (checkOverlap suggestion wanPrefix).hasOverlapO ≠ some true
        then some suggestion else none) := by
  obtain ⟨hp, hple⟩ := getNetworkInfo_parse h
  unfold generateSuggestion
  rw [h]
  simp only []
  rw [hp]
  simp only []
  rw [if_neg (by omega)]
  by_cases h1 : maxIPv6 < info.networkBigInt + (1 <<< (128 - info.prefixLen))
  · by_cases h2 : (info.networkBigInt : Int)
        - ((1 <<< (128 - info.prefixLen) : Nat) : Int) < 0
    · simp only [if_pos h1, if_pos h2]
    · simp only [if_pos h1, if_neg h2]
  · simp only [if_neg h1]

/-- Modelled from claim C4's words (a refinement reference, not code): the
increment is `2^(128 − prefix length of the CONFLICTING range)` (the first
argument), the candidate bases come from the anchor, and the suggested
block keeps the conflicting range's size. -/
def generateSuggestionClaimC4 (conflicting anchor : List Char) :
    Option (List Char) :=
  match getNetworkInfo anchor, getNetworkInfo conflicting with
  | some anchorNetwork, some conflictingNetwork =>
    let increment := 1 <<< (128 - conflictingNetwork.prefixLen)
    let firstCandidate := anchorNetwork.networkBigInt + increment
    let suggestedBigInt : Option Nat :=
      if maxIPv6 < firstCandidate then
        if (anchorNetwork.networkBigInt : Int) - (increment : Int) < 0 then
          none
        else some (anchorNetwork.networkBigInt - increment)
      else some firstCandidate
    match suggestedBigInt with
    | none => none
    | some s =>
      let suggestion := performCompression (bigIntToIPv6 s) ++
        '/' :: Nat.toDigits 10 conflictingNetwork.prefixLen
      if (checkOverlap suggestion anchor).hasOverlapO ≠ some true then
        some suggestion
      else none
  | _, _ => none

/-- C4 counterexample: with conflicting range `2001:db8::/32` and anchor
`2001:db8::/48` the implementation returns `2001:db8:1::/48` — the
candidate base is the anchor base plus `2^80` (an increment derived from
the anchor's /48), while the claim's increment rule (`2^(128 − 32) =
2^96`, from the conflicting range) yields `2001:db9::/32`; neither of the
two candidates the claim permits is the one returned. -/
theorem c4_counterexample :
    generateSuggestion "2001:db8::/32".data "2001:db8::/48".data
        = some "2001:db8:1::/48".data ∧
    generateSuggestionClaimC4 "2001:db8::/32".data "2001:db8::/48".data
        = some "2001:db9::/32".data ∧
    generateSuggestion "2001:db8::/32".data "2001:db8::/48".data
        ≠ generateSuggestionClaimC4 "2001:db8::/32".data
            "2001:db8::/48".data := by
  refine ⟨by decide, by decide, by decide⟩

/-- The network info of `2001:db8:a::/64`. -/
def demoWanNet : NetInfo :=
  ⟨0x20010db8000a00000000000000000000,
   0x20010db8000a0000ffffffffffffffff, 64⟩

theorem c4_witness :
    (getNetworkInfo "2001:db8:a::/64".data = some demoWanNet) ∧
    generateSuggestion "2001:db8:a::/64".data "2001:db8:a::/64".data =
      (if maxIPv6 < demoWanNet.networkBigInt +
          (1 <<< (128 - demoWanNet.prefixLen)) then
        if (demoWanNet.networkBigInt : Int)
            - ((1 <<< (128 - demoWanNet.prefixLen) : Nat) : Int) < 0 then none
        else
          let suggestion := performCompression (bigIntToIPv6
            (demoWanNet.networkBigInt -
              (1 <<< (128 - demoWanNet.prefixLen)))) ++
            '/' :: Nat.toDigits 10 demoWanNet.prefixLen
          if (checkOverlap suggestion "2001:db8:a::/64".data).hasOverlapO
              ≠ some true
          then some suggestion else none
      else
        let suggestion := performCompression (bigIntToIPv6
          (demoWanNet.networkBigInt +
            (1 <<< (128 - demoWanNet.prefixLen)))) ++
          '/' :: Nat.toDigits 10 demoWanNet.prefixLen
        if (checkOverlap suggestion "2001:db8:a::/64".data).hasOverlapO
            ≠ some true
        then some suggestion else none) :=
  ⟨by decide,
    c4_two_attempts "2001:db8:a::/64".data "2001:db8:a::/64".data demoWanNet
      (by decide)⟩

/-- One element of `analyzeBatch`'s `results` array (valid entries carry
`type`/`scope`, invalid ones the error text; unset fields default). -/
structure BatchEntry where
  index : Nat
  pfx : List Char
  valid : Bool
  addrType : String := ""
  scope : String := ""
  err : String := ""
deriving DecidableEq

/-- One element of `analyzeBatch`'s `conflicts` array (`indices` is the
pair `(i, j)`; the prefix texts, reason and recommendation payload are
omitted).  The `catch` branch of the pair loop cannot fire because
`checkOverlapAdvanced` returns its errors instead of throwing. -/
structure Conflict where
  i : Nat
  j : Nat
  overlapType : String
  severity : Severity
deriving DecidableEq

/-- The `severityBreakdown` object of `generateBatchStatistics`. -/
structure SeverityBreakdown where
  critical : Nat
  high : Nat
  medium : Nat
  low : Nat
deriving DecidableEq

/-- The statistics object of `generateBatchStatistics`. -/
structure BatchStatistics where
  total : Nat
  valid : Nat
  invalid : Nat
  conflictCount : Nat
  severityBreakdown : SeverityBreakdown
  healthScore : Int
  validationRate : Int
  conflictRate : Int
deriving DecidableEq

/-- The batch report (`summary` and `executionTime` are presentation-only
and omitted). -/
structure BatchReport where
  results : List BatchEntry
  conflicts : List Conflict
  statistics : BatchStatistics
deriving DecidableEq

/-- `String.prototype.toLowerCase` for the label strings that occur here:
ASCII uppercase letters are lowered, the accented characters in play are
already lowercase (JS and `Char.toLower` agree on them). -/
def jsToLower (s : String) : String := String.mk (s.data.map Char.toLower)

/-- One step of the severity tally of `generateBatchStatistics`:
`severityBreakdown.hasOwnProperty(level)` followed by the increment, for
`level = conflict.severity.label.toLowerCase()` (the `if (conflict.severity)`
truthiness guard always passes here because every modelled conflict has a
severity object). -/
def severityStep (sb : SeverityBreakdown) (c : Conflict) : SeverityBreakdown :=
  let lv := jsToLower c.severity.label
  if lv = "critical" then { sb with critical := sb.critical + 1 }
  else if lv = "high" then { sb with high := sb.high + 1 }
  else if lv = "medium" then { sb with medium := sb.medium + 1 }
  else if lv = "low" then { sb with low := sb.low + 1 }
  else sb

/-- The `conflicts.forEach` tally of `generateBatchStatistics`. -/
def severityTally (conflicts : List Conflict) : SeverityBreakdown :=
  conflicts.foldl severityStep ⟨0, 0, 0, 0⟩

/-- `OverlapEngine.generateBatchStatistics`.  The two rates are
`Math.round` of float divisions; they are modelled as exact rational
rounding (no claim depends on them); `Math.round(healthScore)` is the
identity on the already integral clamped score. -/
def generateBatchStatistics (results : List BatchEntry)
    (conflicts : List Conflict) : BatchStatistics :=
  let total := results.length
  let valid := (results.filter (fun r => r.valid)).length
  let invalid := total - valid
  let conflictCount := conflicts.length
  { total := total
    valid := valid
    invalid := invalid
    conflictCount := conflictCount
    severityBreakdown := severityTally conflicts
    healthScore :=
      if 0 < total then
        max 0 (100 - (invalid : Int) * 10 - (conflictCount : Int) * 15)
      else 100
    validationRate :=
      if 0 < total then round (((valid : ℚ) / (total : ℚ)) * 100) else 0
    conflictRate :=
      if 0 < valid then
        round (((conflictCount : ℚ) / (valid : ℚ)) * 100)
      else 0 }

/-- The indexed valid entries collected by the first loop of
`analyzeBatch` (`validateIPv6` never throws, so the `catch` recording a
thrown message is dead code). -/
def validEntries (prefixes : List (List Char)) : List (Nat × List Char) :=
  prefixes.enum.filter (fun e => (validateIPv6 e.2).isSome)

/-- The ordered pairs visited by the nested `i < j` loops of
`analyzeBatch`. -/
def batchPairs {α : Type} : List α → List (α × α)
  | [] => []
  | x :: xs => xs.map (fun y => (x, y)) ++ batchPairs xs

/-- Stable insertion by entry index. -/
def insertByIndex (x : BatchEntry) : List BatchEntry → List BatchEntry
  | [] => [x]
  | y :: ys =>
    if y.index < x.index then y :: insertByIndex x ys else x :: y :: ys

/-- `results.sort((a, b) => a.index - b.index)` (a stable sort). -/
def sortByIndex : List BatchEntry → List BatchEntry
  | [] => []
  | x :: xs => insertByIndex x (sortByIndex xs)

theorem insertByIndex_perm (x : BatchEntry) (l : List BatchEntry) :
    (insertByIndex x l).Perm (x :: l) := by
  induction l with
  | nil => exact List.Perm.refl _
  | cons y ys ih =>
    unfold insertByIndex
    split
    · exact (ih.cons y).trans (List.Perm.swap x y ys)
    · exact List.Perm.refl _

theorem sortByIndex_perm (l : List BatchEntry) : (sortByIndex l).Perm l := by
  induction l with
  | nil => exact List.Perm.refl _
  | cons x xs ih => exact (insertByIndex_perm x (sortByIndex xs)).trans (ih.cons x)

/-- The invalid-entry records pushed by the first loop of `analyzeBatch`,
in index order. -/
def invalidResults (prefixes : List (List Char)) : List BatchEntry :=
  (prefixes.enum.filter (fun e => (validateIPv6 e.2).isNone)).map
    (fun e => { index := e.1, pfx := e.2, valid := false,
                err := "Prefixo inválido" })

/-- The conflicts collected by the `i < j` pair loop of `analyzeBatch`:
`checkOverlapAdvanced` on each pair of valid entries, kept when
`hasOverlap` is truthy. -/
def batchConflicts (prefixes : List (List Char)) : List Conflict :=
  (batchPairs (validEntries prefixes)).filterMap (fun pr =>
    let r := checkOverlapAdvanced pr.1.2 pr.2.2
    if r.hasOverlapO = some true then
      some { i := pr.1.1, j := pr.2.1, overlapType := r.overlapType,
             severity := r.severity }
    else none)

/-- The valid-entry records appended to `results` after the pair loop. -/
def validResults (prefixes : List (List Char)) : List BatchEntry :=
  (validEntries prefixes).map (fun vp =>
    { index := vp.1, pfx := vp.2, valid := true,
      addrType := (validateIPv6 vp.2).elim "" (fun v => v.addrType),
      scope := (validateIPv6 vp.2).elim "" (fun v => v.scope) })

/-- `OverlapEngine.analyzeBatch`: per-entry validation, the `i < j` pair
loop keeping overlapping pairs as conflicts, the valid entries appended to
`results`, statistics from the unsorted array and the report with the
index-sorted array. -/
def analyzeBatch (prefixes : List (List Char)) : BatchReport :=
  { results := sortByIndex (invalidResults prefixes ++ validResults prefixes)
    conflicts := batchConflicts prefixes
    statistics := generateBatchStatistics
      (invalidResults prefixes ++ validResults prefixes)
      (batchConflicts prefixes) }

theorem analyzeOverlap_severity_cases (s1 e1 s2 e2 : Int) :
    (analyzeOverlap s1 e1 s2 e2).severity = SEVERITY_CRITICAL ∨
    (analyzeOverlap s1 e1 s2 e2).severity = SEVERITY_HIGH ∨
    (analyzeOverlap s1 e1 s2 e2).severity = SEVERITY_MEDIUM ∨
    (analyzeOverlap s1 e1 s2 e2).severity = SEVERITY_NONE := by
  unfold analyzeOverlap analyzeOverlapDetails analyzeNoOverlap
  split_ifs <;> simp

theorem checkOverlapAdvanced_severity_cases (c1 c2 : List Char) :
    (checkOverlapAdvanced c1 c2).severity = SEVERITY_CRITICAL ∨
    (checkOverlapAdvanced c1 c2).severity = SEVERITY_HIGH ∨
    (checkOverlapAdvanced c1 c2).severity = SEVERITY_MEDIUM ∨
    (checkOverlapAdvanced c1 c2).severity = SEVERITY_NONE := by
  unfold checkOverlapAdvanced
  split
  · right; right; right; rfl
  · cases h1 : validateAndGetNetworkInfo c1 with
    | none => right; right; right; rfl
    | some n1 =>
      cases h2 : validateAndGetNetworkInfo c2 with
      | none => right; right; right; rfl
      | some n2 =>
        simp only []
        exact analyzeOverlap_severity_cases _ _ _ _

theorem severityStep_id (sb : SeverityBreakdown) (c : Conflict)
    (h : c.severity = SEVERITY_CRITICAL ∨ c.severity = SEVERITY_HIGH ∨
      c.severity = SEVERITY_MEDIUM ∨ c.severity = SEVERITY_NONE) :
    severityStep sb c = sb := by
  unfold severityStep
  rcases h with h | h | h | h <;> rw [h] <;>
    rw [if_neg (by decide), if_neg (by decide), if_neg (by decide),
      if_neg (by decide)]

theorem severityTally_zero (conflicts : List Conflict)
    (h : ∀ c ∈ conflicts,
      c.severity = SEVERITY_CRITICAL ∨ c.severity = SEVERITY_HIGH ∨
      c.severity = SEVERITY_MEDIUM ∨ c.severity = SEVERITY_NONE) :
    severityTally conflicts = ⟨0, 0, 0, 0⟩ := by
  unfold severityTally
  induction conflicts with
  | nil => rfl
  | cons c cs ih =>
    rw [List.foldl_cons,
      severityStep_id _ c (h c (List.mem_cons_self c cs))]
    exact ih (fun d hd => h d (List.mem_cons_of_mem c hd))

theorem analyzeBatch_conflict_severity (prefixes : List (List Char)) :
    ∀ c ∈ (analyzeBatch prefixes).conflicts,
      c.severity = SEVERITY_CRITICAL ∨ c.severity = SEVERITY_HIGH ∨
      c.severity = SEVERITY_MEDIUM ∨ c.severity = SEVERITY_NONE := by
  intro c hc
  unfold analyzeBatch batchConflicts at hc
  simp only [] at hc
  rcases List.mem_filterMap.mp hc with ⟨pr, _, hmap⟩
  split at hmap
  · simp only [Option.some.injEq] at hmap
    rw [← hmap]
    exact checkOverlapAdvanced_severity_cases pr.1.2 pr.2.2
  · exact absurd hmap (by simp)

/-- C10 (implicit): the batch statistics' four `severityBreakdown`
counters are always 0, whatever the input: conflicts are tallied under the
lowercased Portuguese display label of their severity ("crítico", "alto",
"médio", …), which never equals any of the counter keys
critical/high/medium/low. -/
theorem c10_severity_breakdown_zero (prefixes : List (List Char)) :
    (analyzeBatch prefixes).statistics.severityBreakdown = ⟨0, 0, 0, 0⟩ := by
  have hsb : (analyzeBatch prefixes).statistics.severityBreakdown
      = severityTally (analyzeBatch prefixes).conflicts := rfl
  rw [hsb]
  exact severityTally_zero _ (analyzeBatch_conflict_severity prefixes)

theorem enumFrom_pairwise {α : Type} (n : Nat) (l : List α) :
    (List.enumFrom n l).Pairwise (fun a b => a.1 < b.1) := by
  induction l generalizing n with
  | nil => simp
  | cons x xs ih =>
    rw [List.enumFrom_cons]
    refine List.pairwise_cons.mpr ⟨?_, ih (n + 1)⟩
    intro y hy
    have := (List.mem_enumFrom hy).1
    omega

theorem validEntries_pairwise (prefixes : List (List Char)) :
    (validEntries prefixes).Pairwise (fun a b => a.1 < b.1) :=
  (enumFrom_pairwise 0 prefixes).filter _

theorem batchPairs_mem_of {α : Type} (l : List α) (a b : α) :
    (a, b) ∈ batchPairs l → a ∈ l ∧ b ∈ l := by
  induction l with
  | nil => intro h; exact absurd h (by simp [batchPairs])
  | cons x xs ih =>
    intro h
    unfold batchPairs at h
    rcases List.mem_append.mp h with h | h
    · rcases List.mem_map.mp h with ⟨y, hy, heq⟩
      injection heq with h1 h2
      subst h1 h2
      exact ⟨List.mem_cons_self _ _, List.mem_cons_of_mem _ hy⟩
    · rcases ih h with ⟨ha, hb⟩
      exact ⟨List.mem_cons_of_mem _ ha, List.mem_cons_of_mem _ hb⟩

theorem batchPairs_order {α : Type} {R : α → α → Prop} :
    ∀ (l : List α), l.Pairwise R → ∀ a b, (a, b) ∈ batchPairs l → R a b := by
  intro l
  induction l with
  | nil => intro _ a b h; exact absurd h (by simp [batchPairs])
  | cons x xs ih =>
    intro hp a b h
    rcases List.pairwise_cons.mp hp with ⟨hx, hxs⟩
    unfold batchPairs at h
    rcases List.mem_append.mp h with h | h
    · rcases List.mem_map.mp h with ⟨y, hy, heq⟩
      injection heq with h1 h2
      subst h1 h2
      exact hx _ hy
    · exact ih hxs a b h

theorem batchPairs_complete {α : Type} {R : α → α → Prop}
    (hasymm : ∀ a b, R a b → ¬ R b a) :
    ∀ (l : List α), l.Pairwise R → ∀ a ∈ l, ∀ b ∈ l, R a b →
      (a, b) ∈ batchPairs l := by
  intro l
  induction l with
  | nil => intro _ a ha; exact absurd ha (by simp)
  | cons x xs ih =>
    intro hp a ha b hb hr
    rcases List.pairwise_cons.mp hp with ⟨hx, hxs⟩
    unfold batchPairs
    rcases List.mem_cons.mp ha with rfl | ha2
    · rcases List.mem_cons.mp hb with rfl | hb2
      · exact absurd hr (hasymm _ _ hr)
      · exact List.mem_append_left _ (List.mem_map.mpr ⟨b, hb2, rfl⟩)
    · rcases List.mem_cons.mp hb with rfl | hb2
      · exact absurd (hx _ ha2) (hasymm _ _ hr)
      · exact List.mem_append_right _ (ih hxs a ha2 b hb2 hr)

theorem batchPairs_length {α : Type} (l : List α) :
    (batchPairs l).length = l.length.choose 2 := by
  induction l with
  | nil => rfl
  | cons x xs ih =>
    unfold batchPairs
    rw [List.length_append, List.length_map, ih, List.length_cons]
    rw [Nat.choose_succ_succ xs.length 1, Nat.choose_one_right]

/-- C8: batch analysis validates every entry independently and never
aborts (the model is a total function); every invalid entry is recorded
under its own index with `valid := false`; every conflict names a pair of
valid entries with increasing indices; and all C(k,2) unordered pairs of
the k valid entries are compared — each such pair occurs in the comparison
list, whose length is exactly `k.choose 2`. -/
theorem c8_batch_independence (prefixes : List (List Char)) :
    (∀ i, (hi : i < prefixes.length) →
      (validateIPv6 (prefixes.get ⟨i, hi⟩)).isNone = true →
      ({ index := i, pfx := prefixes.get ⟨i, hi⟩, valid := false,
         err := "Prefixo inválido" } : BatchEntry)
        ∈ (analyzeBatch prefixes).results) ∧
    (∀ c ∈ (analyzeBatch prefixes).conflicts,
      c.i < c.j ∧ ∃ pi pj, (c.i, pi) ∈ validEntries prefixes ∧
        (c.j, pj) ∈ validEntries prefixes) ∧
    (∀ i j, i < j → ∀ (hi : i < prefixes.length) (hj : j < prefixes.length),
      (validateIPv6 (prefixes.get ⟨i, hi⟩)).isSome = true →
      (validateIPv6 (prefixes.get ⟨j, hj⟩)).isSome = true →
      ((i, prefixes.get ⟨i, hi⟩), (j, prefixes.get ⟨j, hj⟩))
        ∈ batchPairs (validEntries prefixes)) ∧
    (batchPairs (validEntries prefixes)).length
      = (validEntries prefixes).length.choose 2 := by
  refine ⟨?_, ?_, ?_, batchPairs_length _⟩
  · intro i hi hnone
    have hmem_enum : (i, prefixes.get ⟨i, hi⟩) ∈ prefixes.enum :=
      List.mem_enum_iff_get?.mpr (List.get?_eq_get hi)
    have hmem_f : (i, prefixes.get ⟨i, hi⟩)
        ∈ prefixes.enum.filter (fun e => (validateIPv6 e.2).isNone) :=
      List.mem_filter.mpr ⟨hmem_enum, hnone⟩
    have hmem_inv : (⟨i, prefixes.get ⟨i, hi⟩, false, "", "",
        "Prefixo inválido"⟩ : BatchEntry) ∈ invalidResults prefixes :=
      List.mem_map.mpr ⟨(i, prefixes.get ⟨i, hi⟩), hmem_f, rfl⟩
    show _ ∈ sortByIndex (invalidResults prefixes ++ validResults prefixes)
    exact (sortByIndex_perm _).mem_iff.mpr (List.mem_append_left _ hmem_inv)
  · intro c hc
    have hc2 : c ∈ batchConflicts prefixes := hc
    unfold batchConflicts at hc2
    rcases List.mem_filterMap.mp hc2 with ⟨pr, hpr, hmap⟩
    dsimp only [] at hmap
    split at hmap
    · simp only [Option.some.injEq] at hmap
      rcases batchPairs_mem_of _ _ _ hpr with ⟨h1, h2⟩
      have hord : pr.1.1 < pr.2.1 := by
        have := batchPairs_order (validEntries prefixes)
          (validEntries_pairwise prefixes) pr.1 pr.2
        exact this (by simpa using hpr)
      rw [← hmap]
      exact ⟨hord, pr.1.2, pr.2.2, by simpa using h1, by simpa using h2⟩
    · exact absurd hmap (by simp)
  · intro i j hij hi hj hvi hvj
    have hmi : (i, prefixes.get ⟨i, hi⟩) ∈ validEntries prefixes :=
      List.mem_filter.mpr
        ⟨List.mem_enum_iff_get?.mpr (List.get?_eq_get hi), hvi⟩
    have hmj : (j, prefixes.get ⟨j, hj⟩) ∈ validEntries prefixes :=
      List.mem_filter.mpr
        ⟨List.mem_enum_iff_get?.mpr (List.get?_eq_get hj), hvj⟩
    exact batchPairs_complete (fun a b hab hba => by omega)
      (validEntries prefixes) (validEntries_pairwise prefixes)
      _ hmi _ hmj hij

/-- The batch of spec Example 5. -/
def demoBatch : List (List Char) :=
  ["2001:db8::1/64".data, "not-an-ip".data, "2001:db8::2/64".data]

theorem c8_witness :
    ((validateIPv6 (demoBatch.get ⟨1, by decide⟩)).isNone = true ∧
      (validateIPv6 (demoBatch.get ⟨0, by decide⟩)).isSome = true ∧
      (validateIPv6 (demoBatch.get ⟨2, by decide⟩)).isSome = true) ∧
    ({ index := 1, pfx := demoBatch.get ⟨1, by decide⟩, valid := false,
       err := "Prefixo inválido" } : BatchEntry)
        ∈ (analyzeBatch demoBatch).results ∧
    ((0, demoBatch.get ⟨0, by decide⟩), (2, demoBatch.get ⟨2, by decide⟩))
      ∈ batchPairs (validEntries demoBatch) := by
  have h := c8_batch_independence demoBatch
  exact ⟨⟨by decide, by decide, by decide⟩,
    h.1 1 (by decide) (by decide),
    h.2.2.1 0 2 (by decide) (by decide) (by decide) (by decide) (by decide)⟩

theorem splitChAux_cons_ne (sep c : Char) (l cur : List Char) (h : ¬ c = sep) :
    splitChAux sep (c :: l) cur = splitChAux sep l (c :: cur) := by
  unfold splitChAux
  rw [if_neg h]
  cases l <;> rfl

theorem splitChAux_sep (sep : Char) (l cur : List Char) :
    splitChAux sep (sep :: l) cur = cur.reverse :: splitChAux sep l [] := by
  unfold splitChAux
  rw [if_pos rfl]
  cases l <;> rfl

theorem splitChAux_append (sep : Char) (g l cur : List Char)
    (h : ∀ c ∈ g, ¬ c = sep) :
    splitChAux sep (g ++ l) cur = splitChAux sep l (g.reverse ++ cur) := by
  induction g generalizing cur with
  | nil => simp
  | cons c g ih =>
    rw [List.cons_append, splitChAux_cons_ne sep c (g ++ l) cur
      (h c (List.mem_cons_self c g))]
    rw [ih (c :: cur) (fun d hd => h d (List.mem_cons_of_mem c hd))]
    simp

theorem splitChAux_intercalate (sep : Char) :
    ∀ (gs : List (List Char)) (g cur : List Char),
      (∀ c ∈ g, ¬ c = sep) →
      (∀ h ∈ gs, h ≠ [] ∧ ∀ c ∈ h, ¬ c = sep) →
      splitChAux sep (List.intercalate [sep] (g :: gs)) cur
        = (cur.reverse ++ g) :: gs := by
  intro gs
  induction gs with
  | nil =>
    intro g cur hg _
    have h1 : List.intercalate [sep] [g] = g ++ [] := by
      simp [List.intercalate]
    rw [h1, splitChAux_append sep g [] cur hg]
    unfold splitChAux
    simp
  | cons h t ih =>
    intro g cur hg hrest
    have h1 : List.intercalate [sep] (g :: h :: t)
        = g ++ sep :: List.intercalate [sep] (h :: t) := by
      simp [List.intercalate, List.intersperse]
    rw [h1, splitChAux_append sep g _ cur hg, splitChAux_sep]
    rw [ih h [] (hrest h (List.mem_cons_self h t)).2
      (fun x hx => hrest x (List.mem_cons_of_mem h hx))]
    simp

theorem splitCh_intercalate (sep : Char) (gs : List (List Char))
    (hne : gs ≠ [])
    (h : ∀ g ∈ gs, g ≠ [] ∧ ∀ c ∈ g, ¬ c = sep) :
    splitCh sep (List.intercalate [sep] gs) = gs := by
  cases gs with
  | nil => exact absurd rfl hne
  | cons g t =>
    unfold splitCh
    rw [splitChAux_intercalate sep t g []
      (h g (List.mem_cons_self g t)).2
      (fun x hx => h x (List.mem_cons_of_mem g hx))]
    simp

theorem containsDC_cons_ne (c : Char) (l : List Char) (h : ¬ c = ':') :
    containsDC (c :: l) = containsDC l := by
  rw [containsDC.eq_def]
  split
  · simp_all
  · simp_all
  · rename_i heq
    injection heq with h1 h2
    rw [h2]

theorem containsDC_colon_cons (d : Char) (l : List Char) (h : ¬ d = ':') :
    containsDC (':' :: d :: l) = containsDC (d :: l) := by
  rw [containsDC.eq_def]
  split
  · simp_all
  · simp_all
  · rename_i heq
    injection heq with h1 h2
    rw [h2]

theorem containsDC_append (g l : List Char) (h : ∀ c ∈ g, ¬ c = ':') :
    containsDC (g ++ l) = containsDC l := by
  induction g with
  | nil => rfl
  | cons c g ih =>
    rw [List.cons_append,
      containsDC_cons_ne c (g ++ l) (h c (List.mem_cons_self c g))]
    exact ih (fun d hd => h d (List.mem_cons_of_mem c hd))

theorem intercalate_colon_cons_shape (d : Char) (h : List Char)
    (t : List (List Char)) :
    ∃ Y, List.intercalate [':'] ((d :: h) :: t) = d :: Y := by
  cases t with
  | nil => exact ⟨h, by simp [List.intercalate]⟩
  | cons x t' =>
    exact ⟨h ++ ':' :: List.intercalate [':'] (x :: t'),
      by simp [List.intercalate, List.intersperse]⟩

theorem containsDC_intercalate :
    ∀ gs : List (List Char),
      (∀ g ∈ gs, g ≠ [] ∧ ∀ c ∈ g, ¬ c = ':') →
      containsDC (List.intercalate [':'] gs) = false := by
  intro gs
  induction gs with
  | nil => intro _; rfl
  | cons g t ih =>
    intro hv
    cases t with
    | nil =>
      have h1 : List.intercalate [':'] [g] = g ++ [] := by
        simp [List.intercalate]
      rw [h1, containsDC_append g [] (hv g (List.mem_cons_self g [])).2]
      rfl
    | cons h t' =>
      have h1 : List.intercalate [':'] (g :: h :: t')
          = g ++ ':' :: List.intercalate [':'] (h :: t') := by
        simp [List.intercalate, List.intersperse]
      rw [h1, containsDC_append g _ (hv g (List.mem_cons_self g _)).2]
      obtain ⟨d, h', rfl⟩ : ∃ d h2, h = d :: h2 := by
        rcases h with _ | ⟨d, h2⟩
        · exact absurd rfl (hv [] (List.mem_cons_of_mem g
            (List.mem_cons_self [] t'))).1
        · exact ⟨d, h2, rfl⟩
      obtain ⟨Y, hY⟩ := intercalate_colon_cons_shape d h' t'
      rw [hY, containsDC_colon_cons d Y
        (by
          have := (hv (d :: h') (List.mem_cons_of_mem g
            (List.mem_cons_self _ t'))).2
          exact this d (List.mem_cons_self d h')), ← hY]
      exact ih (fun x hx => hv x (List.mem_cons_of_mem g hx))

theorem splitDCAux_cons_ne (c : Char) (l cur : List Char) (h : ¬ c = ':') :
    splitDCAux (c :: l) cur = splitDCAux l (c :: cur) := by
  rw [splitDCAux.eq_def]
  split
  · simp_all
  · simp_all
  · rename_i heq
    injection heq with h1 h2
    rw [h1, h2]

theorem splitDCAux_colon_cons (d : Char) (l cur : List Char)
    (h : ¬ d = ':') :
    splitDCAux (':' :: d :: l) cur = splitDCAux (d :: l) (':' :: cur) := by
  rw [splitDCAux.eq_def]
  split
  · simp_all
  · simp_all
  · rename_i heq
    injection heq with h1 h2
    rw [h1, h2]

theorem splitDCAux_colon_nil (cur : List Char) :
    splitDCAux [':'] cur = [cur.reverse ++ [':']] := by
  rw [splitDCAux.eq_def]
  simp [splitDCAux]

theorem splitDCAux_dc (l cur : List Char) :
    splitDCAux (':' :: ':' :: l) cur = cur.reverse :: splitDCAux l [] := rfl

theorem splitDCAux_append (g l cur : List Char) (h : ∀ c ∈ g, ¬ c = ':') :
    splitDCAux (g ++ l) cur = splitDCAux l (g.reverse ++ cur) := by
  induction g generalizing cur with
  | nil => simp
  | cons c g ih =>
    rw [List.cons_append,
      splitDCAux_cons_ne c (g ++ l) cur (h c (List.mem_cons_self c g))]
    rw [ih (c :: cur) (fun d hd => h d (List.mem_cons_of_mem c hd))]
    simp

theorem splitDCAux_noDC (l : List Char) (h : containsDC l = false) :
    ∀ cur, splitDCAux l cur = [cur.reverse ++ l] := by
  induction l with
  | nil => intro cur; simp [splitDCAux]
  | cons c rest ih =>
    intro cur
    by_cases hc : c = ':'
    · subst hc
      cases rest with
      | nil => simpa using splitDCAux_colon_nil cur
      | cons d r' =>
        by_cases hd : d = ':'
        · subst hd
          rw [containsDC.eq_def] at h
          simp at h
        · rw [splitDCAux_colon_cons d r' cur hd]
          rw [containsDC_colon_cons d r' hd] at h
          rw [ih h (':' :: cur)]
          simp
    · rw [splitDCAux_cons_ne c rest cur hc]
      rw [containsDC_cons_ne c rest hc] at h
      rw [ih h (c :: cur)]
      simp

theorem splitDCAux_ne_nil (l : List Char) : ∀ cur, splitDCAux l cur ≠ [] := by
  induction l with
  | nil => intro cur; simp [splitDCAux]
  | cons c rest ih =>
    intro cur
    rw [splitDCAux.eq_def]
    split
    · simp
    · simp [splitDCAux_ne_nil]
    · rename_i heq
      injection heq with h1 h2
      rw [← h2]
      exact ih _

theorem splitDCAux_intercalate_dc :
    ∀ (gs : List (List Char)) (A cur : List Char),
      (∀ g ∈ gs, g ≠ [] ∧ ∀ c ∈ g, ¬ c = ':') →
      splitDCAux (List.intercalate [':'] gs ++ ':' :: ':' :: A) cur
        = (cur.reverse ++ List.intercalate [':'] gs) :: splitDCAux A [] := by
  intro gs
  induction gs with
  | nil =>
    intro A cur _
    show splitDCAux ([] ++ ':' :: ':' :: A) cur
      = (cur.reverse ++ []) :: splitDCAux A []
    rw [List.nil_append, splitDCAux_dc, List.append_nil]
  | cons g t ih =>
    intro A cur hv
    cases t with
    | nil =>
      have h1 : List.intercalate [':'] [g] = g := by simp [List.intercalate]
      rw [h1, splitDCAux_append g _ cur (hv g (List.mem_cons_self g _)).2,
        splitDCAux_dc]
      simp
    | cons h t' =>
      have h1 : List.intercalate [':'] (g :: h :: t')
          = g ++ ':' :: List.intercalate [':'] (h :: t') := by
        simp [List.intercalate, List.intersperse]
      obtain ⟨d, h', rfl⟩ : ∃ d h2, h = d :: h2 := by
        rcases h with _ | ⟨d, h2⟩
        · exact absurd rfl (hv [] (List.mem_cons_of_mem g
            (List.mem_cons_self [] t'))).1
        · exact ⟨d, h2, rfl⟩
      have hd : ¬ d = ':' :=
        (hv (d :: h') (List.mem_cons_of_mem g
          (List.mem_cons_self _ t'))).2 d (List.mem_cons_self d h')
      obtain ⟨Y, hY⟩ := intercalate_colon_cons_shape d h' t'
      rw [h1]
      rw [show (g ++ ':' :: List.intercalate [':'] ((d :: h') :: t'))
            ++ ':' :: ':' :: A
          = g ++ ':' :: (List.intercalate [':'] ((d :: h') :: t')
            ++ ':' :: ':' :: A) by simp]
      rw [splitDCAux_append g _ cur
        (hv g (List.mem_cons_self g _)).2]
      rw [hY, List.cons_append,
        splitDCAux_colon_cons d (Y ++ ':' :: ':' :: A) _ hd,
        ← List.cons_append, ← hY]
      rw [ih A (':' :: (g.reverse ++ cur))
        (fun x hx => hv x (List.mem_cons_of_mem g hx))]
      simp

theorem mem_intercalate_colon :
    ∀ (gs : List (List Char)) (c : Char),
      c ∈ List.intercalate [':'] gs → c = ':' ∨ ∃ g ∈ gs, c ∈ g := by
  intro gs
  induction gs with
  | nil => intro c hc; simp [List.intercalate] at hc
  | cons g t ih =>
    intro c hc
    cases t with
    | nil =>
      right
      exact ⟨g, List.mem_cons_self g _, by simpa [List.intercalate] using hc⟩
    | cons h t' =>
      rw [show List.intercalate [':'] (g :: h :: t')
          = g ++ ':' :: List.intercalate [':'] (h :: t') by
        simp [List.intercalate, List.intersperse]] at hc
      rcases List.mem_append.mp hc with hc | hc
      · exact Or.inr ⟨g, List.mem_cons_self g _, hc⟩
      · rcases List.mem_cons.mp hc with rfl | hc
        · exact Or.inl rfl
        · rcases ih c hc with h1 | ⟨g2, hg2, hcg⟩
          · exact Or.inl h1
          · exact Or.inr ⟨g2, List.mem_cons_of_mem g hg2, hcg⟩

theorem stripBrackets_eq_self (l : List Char)
    (h : ∀ c ∈ l, isHexDigit c = true ∨ c = ':') :
    stripBrackets l = l := by
  unfold stripBrackets
  have hhead : l.head? ≠ some '[' := by
    cases l with
    | nil => simp
    | cons c t =>
      simp only [List.head?_cons, ne_eq, Option.some.injEq]
      intro hc
      rcases h c (List.mem_cons_self c t) with hx | hx <;> rw [hc] at hx <;>
        revert hx <;> decide
  rw [if_neg hhead]
  have hlast : l.getLast? ≠ some ']' := by
    cases hl : l.getLast? with
    | none => simp
    | some c =>
      have hc : c ∈ l := List.mem_of_mem_getLast? hl
      simp only [ne_eq, Option.some.injEq]
      intro he
      rcases h c hc with hx | hx <;> rw [he] at hx <;>
        revert hx <;> decide
  rw [if_neg hlast]

theorem pad4_of_len4 (g : List Char) (h : g.length = 4) : pad4 g = g := by
  unfold pad4
  rw [h]
  simp

theorem pad4_valid (g : List Char) (h : isHexGroup g = true) :
    (pad4 g).length = 4 ∧ ∀ c ∈ pad4 g, isHexDigit c = true := by
  unfold isHexGroup at h
  rw [Bool.and_eq_true, decide_eq_true_eq] at h
  obtain ⟨⟨h1, h2⟩, h3⟩ := h
  constructor
  · unfold pad4
    rw [List.length_append, List.length_replicate]
    omega
  · intro c hc
    rcases List.mem_append.mp hc with hc | hc
    · rw [List.eq_of_mem_replicate hc]
      decide
    · exact List.all_eq_true.mp h3 c hc

theorem stripZeros_valid (g : List Char) (h4 : g.length = 4)
    (h : ∀ c ∈ g, isHexDigit c = true) :
    stripZeros g ≠ [] ∧ isHexGroup (stripZeros g) = true ∧
      ∀ c ∈ stripZeros g, isHexDigit c = true ∧ ¬ c = ':' := by
  have hmem : ∀ c ∈ stripZeros g, isHexDigit c = true := by
    intro c hc
    unfold stripZeros at hc
    dsimp only [] at hc
    split at hc
    · simp at hc
      rw [hc]
      decide
    · exact h c ((g.dropWhile_sublist (fun x => x = '0')).mem hc)
  have hne : stripZeros g ≠ [] := by
    unfold stripZeros
    dsimp only []
    split
    · simp
    · simp_all
  have hlen : (stripZeros g).length ≤ 4 := by
    unfold stripZeros
    dsimp only []
    split
    · simp
    · calc (g.dropWhile (fun x => x = '0')).length ≤ g.length :=
          (g.dropWhile_sublist _).length_le
        _ = 4 := h4
  refine ⟨hne, ?_, ?_⟩
  · unfold isHexGroup
    rw [Bool.and_eq_true, decide_eq_true_eq]
    refine ⟨⟨?_, hlen⟩, List.all_eq_true.mpr hmem⟩
    cases he : stripZeros g with
    | nil => exact absurd he hne
    | cons x t => simp
  · intro c hc
    refine ⟨hmem c hc, ?_⟩
    intro he
    have := hmem c hc
    rw [he] at this
    exact absurd this (by decide)

theorem pad4_stripZeros (g : List Char) (h4 : g.length = 4)
    (h : ∀ c ∈ g, isHexDigit c = true) : pad4 (stripZeros g) = g := by
  have hsplit := List.takeWhile_append_dropWhile (fun x => x = '0') g
  have htake : g.takeWhile (fun x => x = '0')
      = List.replicate (g.takeWhile (fun x => x = '0')).length '0' := by
    apply List.eq_replicate_of_mem
    intro b hb
    have := List.mem_takeWhile_imp hb
    simpa using this
  unfold stripZeros pad4
  dsimp only []
  split
  · rename_i hdrop
    simp only [List.length_singleton]
    have hlen : (g.takeWhile (fun x => x = '0')).length = 4 := by
      have := congrArg List.length hsplit
      simp only [List.length_append] at this
      simp only [List.isEmpty_iff] at hdrop
      rw [hdrop] at this
      simp at this
      omega
    rw [← hsplit]
    simp only [List.isEmpty_iff] at hdrop
    rw [hdrop, htake, hlen]
    rfl
  · have hlen : (g.takeWhile (fun x => x = '0')).length
        + (g.dropWhile (fun x => x = '0')).length = 4 := by
      have := congrArg List.length hsplit
      simp only [List.length_append] at this
      omega
    rw [show 4 - (g.dropWhile (fun x => x = '0')).length
      = (g.takeWhile (fun x => x = '0')).length by omega]
    rw [← htake]
    exact hsplit

/-- An expanded address body: 8 groups of exactly 4 hex digits. -/
def ExpandedGroups (gs : List (List Char)) : Prop :=
  gs.length = 8 ∧ ∀ g ∈ gs, g.length = 4 ∧ ∀ c ∈ g, isHexDigit c = true

theorem expandedGroups_nocolon {gs : List (List Char)}
    (h : ExpandedGroups gs) : ∀ g ∈ gs, g ≠ [] ∧ ∀ c ∈ g, ¬ c = ':' := by
  intro g hg
  obtain ⟨h4, hhex⟩ := h.2 g hg
  constructor
  · intro he
    rw [he] at h4
    simp at h4
  · intro c hc he
    have := hhex c hc
    rw [he] at this
    exact absurd this (by decide)

theorem map_pad4_expanded {gs : List (List Char)} (h : ExpandedGroups gs) :
    gs.map pad4 = gs := by
  conv_rhs => rw [← List.map_id gs]
  exact List.map_congr_left (fun g hg => pad4_of_len4 g ((h.2 g hg).1))

theorem performExpansion_expanded (gs : List (List Char))
    (h : ExpandedGroups gs) :
    performExpansion (List.intercalate [':'] gs)
      = some (List.intercalate [':'] gs) := by
  obtain ⟨h8, hval⟩ := h
  have hnc := expandedGroups_nocolon ⟨h8, hval⟩
  have hchars : ∀ c ∈ List.intercalate [':'] gs,
      isHexDigit c = true ∨ c = ':' := by
    intro c hc
    rcases mem_intercalate_colon gs c hc with rfl | ⟨g, hg, hcg⟩
    · exact Or.inr rfl
    · exact Or.inl ((hval g hg).2 c hcg)
  have hgs_ne : gs ≠ [] := by
    intro he
    rw [he] at h8
    simp at h8
  unfold performExpansion
  rw [stripBrackets_eq_self _ hchars]
  dsimp only []
  rw [containsDC_intercalate gs hnc]
  rw [if_pos (by simp)]
  rw [splitCh_intercalate ':' gs hgs_ne hnc]
  rw [if_neg (by rw [h8]; omega)]
  rw [map_pad4_expanded ⟨h8, hval⟩]

/-- A maximal run of `true` (all-zero groups) in the 8-entry zero pattern:
nonempty, inside the 8 groups, all zero, not extendable on either side. -/
def ZeroRun (p : List Bool) (s len : Nat) : Prop :=
  1 ≤ len ∧ s + len ≤ 8 ∧
  (∀ i < 8, s ≤ i → i < s + len → p.getD i false = true) ∧
  (s = 0 ∨ p.getD (s - 1) false = false) ∧
  (s + len = 8 ∨ p.getD (s + len) false = false)

instance (p : List Bool) (s len : Nat) : Decidable (ZeroRun p s len) := by
  unfold ZeroRun
  infer_instance

/-- The longest maximal zero run, ties broken by the leftmost start. -/
def IsBestRun (p : List Bool) (s len : Nat) : Prop :=
  ZeroRun p s len ∧
  ∀ s2 < 8, ∀ len2 ≤ 8, ZeroRun p s2 len2 →
    len2 < len ∨ (len2 = len ∧ s ≤ s2)

instance (p : List Bool) (s len : Nat) : Decidable (IsBestRun p s len) := by
  unfold IsBestRun
  infer_instance

set_option maxHeartbeats 4000000 in
theorem runLoop_best (b0 b1 b2 b3 b4 b5 b6 b7 : Bool) :
    (2 ≤ (runLoop [b0, b1, b2, b3, b4, b5, b6, b7]).2 →
      IsBestRun [b0, b1, b2, b3, b4, b5, b6, b7]
        (runLoop [b0, b1, b2, b3, b4, b5, b6, b7]).1.toNat
        (runLoop [b0, b1, b2, b3, b4, b5, b6, b7]).2.toNat ∧
      (runLoop [b0, b1, b2, b3, b4, b5, b6, b7]).1
        = ((runLoop [b0, b1, b2, b3, b4, b5, b6, b7]).1.toNat : Int) ∧
      (runLoop [b0, b1, b2, b3, b4, b5, b6, b7]).2
        = ((runLoop [b0, b1, b2, b3, b4, b5, b6, b7]).2.toNat : Int)) ∧
    ((runLoop [b0, b1, b2, b3, b4, b5, b6, b7]).2 < 2 →
      ∀ s < 8, ∀ len ≤ 8,
        ZeroRun [b0, b1, b2, b3, b4, b5, b6, b7] s len → len < 2) := by
  revert b0 b1 b2 b3 b4 b5 b6 b7
  decide

theorem isBestRun_unique {p : List Bool} {s1 len1 s2 len2 : Nat}
    (h1 : IsBestRun p s1 len1) (h2 : IsBestRun p s2 len2) :
    s1 = s2 ∧ len1 = len2 := by
  obtain ⟨hz1, hb1⟩ := h1
  obtain ⟨hz2, hb2⟩ := h2
  have c1 := hz1.1
  have c2 := hz1.2.1
  have c3 := hz2.1
  have c4 := hz2.2.1
  have e1 := hb1 s2 (by omega) len2 (by omega) hz2
  have e2 := hb2 s1 (by omega) len1 (by omega) hz1
  rcases e1 with e1 | ⟨e1a, e1b⟩ <;> rcases e2 with e2 | ⟨e2a, e2b⟩ <;> omega

theorem list_length8_destruct {α : Type} (gs : List α) (h8 : gs.length = 8) :
    ∃ g0 g1 g2 g3 g4 g5 g6 g7, gs = [g0, g1, g2, g3, g4, g5, g6, g7] := by
  rcases gs with _ | ⟨g0, gs⟩
  · simp at h8
  rcases gs with _ | ⟨g1, gs⟩
  · simp at h8
  rcases gs with _ | ⟨g2, gs⟩
  · simp at h8
  rcases gs with _ | ⟨g3, gs⟩
  · simp at h8
  rcases gs with _ | ⟨g4, gs⟩
  · simp at h8
  rcases gs with _ | ⟨g5, gs⟩
  · simp at h8
  rcases gs with _ | ⟨g6, gs⟩
  · simp at h8
  rcases gs with _ | ⟨g7, gs⟩
  · simp at h8
  rcases gs with _ | ⟨g8, gs⟩
  · exact ⟨g0, g1, g2, g3, g4, g5, g6, g7, rfl⟩
  · simp at h8

theorem compressJoin_eq (before after : List (List Char)) :
    (if before.isEmpty && after.isEmpty then [':', ':']
     else if before.isEmpty then
       ':' :: ':' :: List.intercalate [':'] after
     else if after.isEmpty then
       List.intercalate [':'] before ++ [':', ':']
     else
       List.intercalate [':'] before ++ ':' :: ':'
         :: List.intercalate [':'] after)
    = List.intercalate [':'] before ++ ':' :: ':'
      :: List.intercalate [':'] after := by
  cases before <;> cases after <;> simp [List.intercalate]

theorem performCompression_cases (gs : List (List Char))
    (h : ExpandedGroups gs) :
    (2 ≤ (runLoop (gs.map (fun g => g == zero4))).2 →
      IsBestRun (gs.map (fun g => g == zero4))
        (runLoop (gs.map (fun g => g == zero4))).1.toNat
        (runLoop (gs.map (fun g => g == zero4))).2.toNat ∧
      performCompression (List.intercalate [':'] gs)
        = List.intercalate [':']
            ((gs.take (runLoop (gs.map (fun g => g == zero4))).1.toNat).map
              stripZeros)
          ++ ':' :: ':' :: List.intercalate [':']
            ((gs.drop ((runLoop (gs.map (fun g => g == zero4))).1.toNat
              + (runLoop (gs.map (fun g => g == zero4))).2.toNat)).map
                stripZeros)) ∧
    ((runLoop (gs.map (fun g => g == zero4))).2 < 2 →
      (∀ s < 8, ∀ len ≤ 8,
        ZeroRun (gs.map (fun g => g == zero4)) s len → len < 2) ∧
      performCompression (List.intercalate [':'] gs)
        = List.intercalate [':'] (gs.map stripZeros)) := by
  obtain ⟨h8, hval⟩ := h
  obtain ⟨g0, g1, g2, g3, g4, g5, g6, g7, rfl⟩ := list_length8_destruct gs h8
  simp only [List.map_cons, List.map_nil]
  have hbest := runLoop_best (g0 == zero4) (g1 == zero4) (g2 == zero4)
    (g3 == zero4) (g4 == zero4) (g5 == zero4) (g6 == zero4) (g7 == zero4)
  have hexp := performExpansion_expanded _ (⟨h8, hval⟩ : ExpandedGroups _)
  have hnc := expandedGroups_nocolon (⟨h8, hval⟩ : ExpandedGroups
    [g0, g1, g2, g3, g4, g5, g6, g7])
  have hcompdef : performCompression
      (List.intercalate [':'] [g0, g1, g2, g3, g4, g5, g6, g7])
      = (let groups := [g0, g1, g2, g3, g4, g5, g6, g7]
         let zs := [g0 == zero4, g1 == zero4, g2 == zero4, g3 == zero4,
           g4 == zero4, g5 == zero4, g6 == zero4, g7 == zero4]
         let best := runLoop zs
         if best.2 < 2 then
           List.intercalate [':'] (groups.map stripZeros)
         else
           let before := (groups.take best.1.toNat).map stripZeros
           let after := (groups.drop (best.1.toNat + best.2.toNat)).map
             stripZeros
           if before.isEmpty && after.isEmpty then [':', ':']
           else if before.isEmpty then
             ':' :: ':' :: List.intercalate [':'] after
           else if after.isEmpty then
             List.intercalate [':'] before ++ [':', ':']
           else
             List.intercalate [':'] before ++ ':' :: ':'
               :: List.intercalate [':'] after) := by
    unfold performCompression
    rw [hexp]
    dsimp only []
    rw [splitCh_intercalate ':' _ (by simp) hnc]
    rfl
  constructor
  · intro hr2
    obtain ⟨hbr, hc1, hc2⟩ := hbest.1 hr2
    refine ⟨hbr, ?_⟩
    rw [hcompdef]
    dsimp only []
    rw [if_neg (by omega)]
    exact compressJoin_eq _ _
  · intro hr2
    refine ⟨hbest.2 hr2, ?_⟩
    rw [hcompdef]
    dsimp only []
    rw [if_pos hr2]
    rfl

/-- C5: on a valid expanded 8-group text, compression replaces the longest
run (ties: leftmost) of at least two consecutive `0000` groups with `::`
and strips leading zeros from every remaining group; when no such run
exists it only strips leading zeros and inserts no `::`. -/
theorem c5_compression (gs : List (List Char)) (h8 : gs.length = 8)
    (hval : ∀ g ∈ gs, g.length = 4 ∧ ∀ c ∈ g, isHexDigit c = true) :
    (∀ s len, 2 ≤ len → IsBestRun (gs.map (fun g => g == zero4)) s len →
      performCompression (List.intercalate [':'] gs)
        = List.intercalate [':'] ((gs.take s).map stripZeros)
          ++ ':' :: ':' :: List.intercalate [':']
            ((gs.drop (s + len)).map stripZeros)) ∧
    ((∀ s < 8, ∀ len ≤ 8,
        ZeroRun (gs.map (fun g => g == zero4)) s len → len < 2) →
      performCompression (List.intercalate [':'] gs)
        = List.intercalate [':'] (gs.map stripZeros)) := by
  have hc := performCompression_cases gs ⟨h8, hval⟩
  constructor
  · intro s len hlen hbr
    have hz := hbr.1
    have hz1 := hz.1
    have hz2 := hz.2.1
    have hr2 : 2 ≤ (runLoop (gs.map (fun g => g == zero4))).2 := by
      by_contra hcon
      push_neg at hcon
      have := (hc.2 hcon).1 s (by omega) len (by omega) hz
      omega
    obtain ⟨hbr0, heq⟩ := hc.1 hr2
    obtain ⟨hs, hl⟩ := isBestRun_unique hbr0 hbr
    rw [heq, hs, hl]
  · intro hno
    have hr2 : (runLoop (gs.map (fun g => g == zero4))).2 < 2 := by
      by_contra hcon
      push_neg at hcon
      obtain ⟨hbr0, _⟩ := hc.1 hcon
      have hz := hbr0.1
      have hz1 := hz.1
      have hz2 := hz.2.1
      have := hno _ (by omega) _ (by omega) hz
      omega
    exact (hc.2 hr2).2

/-- The expanded groups of `2001:0db8:0000:0000:0000:0000:0000:0001`. -/
def demoGroups : List (List Char) :=
  ["2001".data, "0db8".data, zero4, zero4, zero4, zero4, zero4, "0001".data]

theorem c5_witness :
    (demoGroups.length = 8 ∧
      (∀ g ∈ demoGroups, g.length = 4 ∧ ∀ c ∈ g, isHexDigit c = true) ∧
      2 ≤ 5 ∧ IsBestRun (demoGroups.map (fun g => g == zero4)) 2 5) ∧
    performCompression (List.intercalate [':'] demoGroups)
      = "2001:db8::1".data := by
  have h := c5_compression demoGroups (by decide) (by decide)
  refine ⟨⟨by decide, by decide, by decide, by decide⟩, ?_⟩
  have h2 := h.1 2 5 (by decide) (by decide)
  rw [h2]
  decide

theorem strippedGroups_props {gs : List (List Char)}
    (hval : ∀ g ∈ gs, g.length = 4 ∧ ∀ c ∈ g, isHexDigit c = true) :
    ∀ g2 ∈ gs.map stripZeros, g2 ≠ [] ∧ (∀ c ∈ g2, ¬ c = ':') ∧
      isHexGroup g2 = true ∧ ∀ c ∈ g2, isHexDigit c = true := by
  intro g2 hg2
  rcases List.mem_map.mp hg2 with ⟨g, hg, rfl⟩
  obtain ⟨h4, hhex⟩ := hval g hg
  obtain ⟨hne, hhg, hmem⟩ := stripZeros_valid g h4 hhex
  exact ⟨hne, fun c hc => (hmem c hc).2, hhg, fun c hc => (hmem c hc).1⟩

theorem map_pad4_stripZeros {gs : List (List Char)}
    (hval : ∀ g ∈ gs, g.length = 4 ∧ ∀ c ∈ g, isHexDigit c = true) :
    (gs.map stripZeros).map pad4 = gs := by
  rw [List.map_map]
  conv_rhs => rw [← List.map_id gs]
  exact List.map_congr_left (fun g hg =>
    pad4_stripZeros g (hval g hg).1 (hval g hg).2)

theorem performExpansion_stripJoin (gs : List (List Char))
    (h : ExpandedGroups gs) :
    performExpansion (List.intercalate [':'] (gs.map stripZeros))
      = some (List.intercalate [':'] gs) := by
  obtain ⟨h8, hval⟩ := h
  have hprops := strippedGroups_props hval
  have hnc : ∀ g2 ∈ gs.map stripZeros, g2 ≠ [] ∧ ∀ c ∈ g2, ¬ c = ':' :=
    fun g2 hg2 => ⟨(hprops g2 hg2).1, (hprops g2 hg2).2.1⟩
  have hchars : ∀ c ∈ List.intercalate [':'] (gs.map stripZeros),
      isHexDigit c = true ∨ c = ':' := by
    intro c hc
    rcases mem_intercalate_colon _ c hc with rfl | ⟨g2, hg2, hcg⟩
    · exact Or.inr rfl
    · exact Or.inl ((hprops g2 hg2).2.2.2 c hcg)
  have hne : gs.map stripZeros ≠ [] := by
    intro he
    have := congrArg List.length he
    simp [h8] at this
  unfold performExpansion
  rw [stripBrackets_eq_self _ hchars]
  dsimp only []
  rw [containsDC_intercalate _ hnc]
  rw [if_pos (by simp)]
  rw [splitCh_intercalate ':' _ hne hnc]
  rw [if_neg (by rw [List.length_map, h8]; omega)]
  rw [map_pad4_stripZeros hval]

theorem partGroups_intercalate (gs : List (List Char))
    (h : ∀ g ∈ gs, g ≠ [] ∧ ∀ c ∈ g, ¬ c = ':') :
    partGroups (List.intercalate [':'] gs) = gs := by
  cases gs with
  | nil => rfl
  | cons g t =>
    obtain ⟨d, g2, rfl⟩ : ∃ d g2, g = d :: g2 := by
      rcases g with _ | ⟨d, g2⟩
      · exact absurd rfl (h [] (List.mem_cons_self [] t)).1
      · exact ⟨d, g2, rfl⟩
    obtain ⟨Y, hY⟩ := intercalate_colon_cons_shape d g2 t
    unfold partGroups
    rw [hY, if_neg (by simp), ← hY]
    rw [splitCh_intercalate ':' _ (by simp) h]
    apply List.filter_eq_self.mpr
    intro a ha
    cases a with
    | nil => exact absurd rfl (h [] ha).1
    | cons x xs => rfl

theorem performExpansion_compressedForm (gs : List (List Char))
    (h : ExpandedGroups gs) (s len : Nat) (hlen : 1 ≤ len)
    (hsl : s + len ≤ 8)
    (hrun : ∀ (i : Nat) (hi : i < gs.length), s ≤ i → i < s + len →
      gs.get ⟨i, hi⟩ = zero4) :
    performExpansion
      (List.intercalate [':'] ((gs.take s).map stripZeros)
        ++ ':' :: ':'
        :: List.intercalate [':'] ((gs.drop (s + len)).map stripZeros))
      = some (List.intercalate [':'] gs) := by
  obtain ⟨h8, hval⟩ := h
  have hvalB : ∀ g ∈ gs.take s, g.length = 4 ∧ ∀ c ∈ g, isHexDigit c = true :=
    fun g hg => hval g ((List.take_sublist s gs).subset hg)
  have hvalA : ∀ g ∈ gs.drop (s + len),
      g.length = 4 ∧ ∀ c ∈ g, isHexDigit c = true :=
    fun g hg => hval g ((List.drop_sublist (s + len) gs).subset hg)
  have hpB := strippedGroups_props hvalB
  have hpA := strippedGroups_props hvalA
  have hncB : ∀ g2 ∈ (gs.take s).map stripZeros,
      g2 ≠ [] ∧ ∀ c ∈ g2, ¬ c = ':' :=
    fun g2 hg2 => ⟨(hpB g2 hg2).1, (hpB g2 hg2).2.1⟩
  have hncA : ∀ g2 ∈ (gs.drop (s + len)).map stripZeros,
      g2 ≠ [] ∧ ∀ c ∈ g2, ¬ c = ':' :=
    fun g2 hg2 => ⟨(hpA g2 hg2).1, (hpA g2 hg2).2.1⟩
  have hchars : ∀ c ∈ List.intercalate [':'] ((gs.take s).map stripZeros)
      ++ ':' :: ':'
      :: List.intercalate [':'] ((gs.drop (s + len)).map stripZeros),
      isHexDigit c = true ∨ c = ':' := by
    intro c hc
    rcases List.mem_append.mp hc with hc | hc
    · rcases mem_intercalate_colon _ c hc with rfl | ⟨g2, hg2, hcg⟩
      · exact Or.inr rfl
      · exact Or.inl ((hpB g2 hg2).2.2.2 c hcg)
    · rcases List.mem_cons.mp hc with rfl | hc
      · exact Or.inr rfl
      · rcases List.mem_cons.mp hc with rfl | hc
        · exact Or.inr rfl
        · rcases mem_intercalate_colon _ c hc with rfl | ⟨g2, hg2, hcg⟩
          · exact Or.inr rfl
          · exact Or.inl ((hpA g2 hg2).2.2.2 c hcg)
  have h2aux : splitDCAux
      (List.intercalate [':'] ((gs.take s).map stripZeros)
        ++ ':' :: ':'
        :: List.intercalate [':'] ((gs.drop (s + len)).map stripZeros)) []
      = [List.intercalate [':'] ((gs.take s).map stripZeros),
         List.intercalate [':'] ((gs.drop (s + len)).map stripZeros)] := by
    rw [splitDCAux_intercalate_dc ((gs.take s).map stripZeros)
      (List.intercalate [':'] ((gs.drop (s + len)).map stripZeros)) [] hncB]
    rw [splitDCAux_noDC
      (List.intercalate [':'] ((gs.drop (s + len)).map stripZeros))
      (containsDC_intercalate _ hncA) []]
    simp
  have h2 : splitDC
      (List.intercalate [':'] ((gs.take s).map stripZeros)
        ++ ':' :: ':'
        :: List.intercalate [':'] ((gs.drop (s + len)).map stripZeros))
      = [List.intercalate [':'] ((gs.take s).map stripZeros),
         List.intercalate [':'] ((gs.drop (s + len)).map stripZeros)] := by
    unfold splitDC
    exact h2aux
  have hDC : containsDC
      (List.intercalate [':'] ((gs.take s).map stripZeros)
        ++ ':' :: ':'
        :: List.intercalate [':'] ((gs.drop (s + len)).map stripZeros))
      = true := by
    rcases hb : containsDC
      (List.intercalate [':'] ((gs.take s).map stripZeros)
        ++ ':' :: ':'
        :: List.intercalate [':'] ((gs.drop (s + len)).map stripZeros))
      with _ | _
    · exfalso
      have h1 := splitDCAux_noDC _ hb []
      rw [h2aux] at h1
      simp at h1
    · rfl
  unfold performExpansion
  rw [stripBrackets_eq_self _ hchars]
  dsimp only []
  rw [hDC]
  rw [if_neg (by simp)]
  rw [h2]
  simp only [List.getD_cons_zero, List.getD_cons_succ]
  rw [partGroups_intercalate _ hncB, partGroups_intercalate _ hncA]
  have hlB : ((gs.take s).map stripZeros).length = s := by
    rw [List.length_map, List.length_take, h8]
    omega
  have hlA : ((gs.drop (s + len)).map stripZeros).length = 8 - (s + len) := by
    rw [List.length_map, List.length_drop, h8]
  rw [if_neg (by rw [hlB, hlA]; omega)]
  rw [hlB, hlA]
  rw [show 8 - (s + (8 - (s + len))) = len by omega]
  have hall : ((gs.take s).map stripZeros
      ++ List.replicate len zero4
      ++ (gs.drop (s + len)).map stripZeros).all isHexGroup = true := by
    rw [List.all_eq_true]
    intro g hg
    rcases List.mem_append.mp hg with hg1 | hg1
    · rcases List.mem_append.mp hg1 with hg2 | hg2
      · exact (hpB g hg2).2.2.1
      · rw [List.eq_of_mem_replicate hg2]
        decide
    · exact (hpA g hg1).2.2.1
  rw [if_pos hall]
  congr 1
  rw [List.map_append, List.map_append]
  rw [map_pad4_stripZeros hvalB, map_pad4_stripZeros hvalA]
  rw [List.map_replicate]
  rw [show pad4 zero4 = zero4 from rfl]
  have htk : ((gs.drop s).take len).length = len := by
    rw [List.length_take, List.length_drop, h8]
    omega
  have hmid : List.replicate len zero4 = (gs.drop s).take len := by
    symm
    refine List.eq_replicate.mpr ⟨htk, ?_⟩
    intro b hb
    rcases List.mem_iff_getElem.mp hb with ⟨i, hi, hgi⟩
    have hi2 : i < len := by
      have h3 := hi
      rw [htk] at h3
      exact h3
    rw [List.getElem_take, List.getElem_drop] at hgi
    have hfull : s + i < gs.length := by
      rw [h8]
      omega
    have h4 := hrun (s + i) hfull (by omega) (by omega)
    rw [List.get_eq_getElem] at h4
    rw [← hgi]
    exact h4
  have hsplit2 : gs.take s ++ ((gs.drop s).take len ++ gs.drop (s + len))
      = gs := by
    rw [show gs.drop (s + len) = (gs.drop s).drop len by
      rw [List.drop_drop]]
    rw [List.take_append_drop, List.take_append_drop]
  rw [hmid, List.append_assoc, hsplit2]

theorem expandedGroups_map_pad4 {gs : List (List Char)}
    (h8 : gs.length = 8) (hhex : ∀ g ∈ gs, isHexGroup g = true) :
    ExpandedGroups (gs.map pad4) := by
  constructor
  · rw [List.length_map, h8]
  · intro g hg
    rcases List.mem_map.mp hg with ⟨x, hx, rfl⟩
    exact pad4_valid x (hhex x hx)

theorem performExpansion_valid (T : List Char) (h : isValidFormat T = true) :
    ∃ gs, performExpansion T = some (List.intercalate [':'] gs)
      ∧ ExpandedGroups gs := by
  unfold isValidFormat at h
  by_cases he : T.isEmpty = true
  · rw [if_pos he] at h
    simp at h
  rw [if_neg he] at h
  by_cases hall : T.all (fun c => isHexDigit c || c = ':') = true
  case neg =>
    rw [if_pos hall] at h
    simp at h
  rw [if_neg (not_not_intro hall)] at h
  by_cases hcnt : 1 < countDC T
  · rw [if_pos hcnt] at h
    simp at h
  rw [if_neg hcnt] at h
  by_cases htc : containsTC T = true
  · rw [if_pos htc] at h
    simp at h
  rw [if_neg htc] at h
  have hchars : ∀ c ∈ T, isHexDigit c = true ∨ c = ':' := by
    intro c hc
    have h2 := List.all_eq_true.mp hall c hc
    simp only [Bool.or_eq_true, decide_eq_true_eq] at h2
    exact h2
  by_cases hdc : containsDC T = true
  · rw [if_pos hdc] at h
    unfold validateCompressedFormat at h
    dsimp only [] at h
    by_cases h2 : (splitDC T).length ≠ 2
    · rw [if_pos h2] at h
      simp at h
    rw [if_neg h2] at h
    rw [Bool.and_eq_true, decide_eq_true_eq] at h
    obtain ⟨hle, hhex⟩ := h
    have hallhex : (partGroups ((splitDC T).getD 0 [])
        ++ List.replicate
            (8 - ((partGroups ((splitDC T).getD 0 [])).length
              + (partGroups ((splitDC T).getD 1 [])).length)) zero4
        ++ partGroups ((splitDC T).getD 1 [])).all isHexGroup = true := by
      rw [List.all_eq_true]
      intro g hg
      rcases List.mem_append.mp hg with hg1 | hg1
      · rcases List.mem_append.mp hg1 with hg2 | hg2
        · exact List.all_eq_true.mp hhex g (List.mem_append.mpr (Or.inl hg2))
        · rw [List.eq_of_mem_replicate hg2]
          decide
      · exact List.all_eq_true.mp hhex g (List.mem_append.mpr (Or.inr hg1))
    refine ⟨(partGroups ((splitDC T).getD 0 [])
        ++ List.replicate
            (8 - ((partGroups ((splitDC T).getD 0 [])).length
              + (partGroups ((splitDC T).getD 1 [])).length)) zero4
        ++ partGroups ((splitDC T).getD 1 [])).map pad4, ?_, ?_⟩
    · unfold performExpansion
      rw [stripBrackets_eq_self T hchars]
      dsimp only []
      rw [hdc]
      rw [if_neg (by simp)]
      rw [if_neg (by omega)]
      rw [if_pos hallhex]
    · apply expandedGroups_map_pad4
      · rw [List.length_append, List.length_append, List.length_replicate]
        omega
      · exact List.all_eq_true.mp hallhex
  · rw [if_neg hdc] at h
    unfold validateFullFormat at h
    dsimp only [] at h
    rw [Bool.and_eq_true, decide_eq_true_eq] at h
    obtain ⟨h8, hhex⟩ := h
    have hdc2 : containsDC T = false := by
      rcases hb : containsDC T with _ | _
      · rfl
      · exact absurd hb hdc
    refine ⟨(splitCh ':' T).map pad4, ?_, ?_⟩
    · unfold performExpansion
      rw [stripBrackets_eq_self T hchars]
      dsimp only []
      rw [hdc2]
      rw [if_pos (by simp)]
      rw [if_neg (not_ne_iff.mpr h8)]
    · exact expandedGroups_map_pad4 h8 (List.all_eq_true.mp hhex)

theorem performExpansion_performCompression (gs : List (List Char))
    (h : ExpandedGroups gs) :
    performExpansion (performCompression (List.intercalate [':'] gs))
      = some (List.intercalate [':'] gs) := by
  have hc := performCompression_cases gs h
  rcases lt_or_le (runLoop (gs.map (fun g => g == zero4))).2 2 with hr | hr
  · rw [(hc.2 hr).2]
    exact performExpansion_stripJoin gs h
  · obtain ⟨hbr, heq⟩ := hc.1 hr
    rw [heq]
    obtain ⟨hzr, _⟩ := hbr
    have hlen1 := hzr.1
    have hsl := hzr.2.1
    have hmem := hzr.2.2.1
    apply performExpansion_compressedForm gs h _ _ hlen1 hsl
    intro i hi his hilt
    have h8 := h.1
    have hi8 : i < 8 := by omega
    have h5 := hmem i hi8 his hilt
    have hlenp : i < (gs.map (fun g => g == zero4)).length := by
      rw [List.length_map]
      exact hi
    rw [List.getD_eq_getElem _ _ hlenp] at h5
    rw [List.getElem_map] at h5
    rw [List.get_eq_getElem]
    exact eq_of_beq h5

theorem filter_ne_colon_intercalate :
    ∀ gs : List (List Char), (∀ g ∈ gs, ∀ c ∈ g, ¬ c = ':') →
      (List.intercalate [':'] gs).filter (fun c => c != ':') = gs.join := by
  intro gs
  induction gs with
  | nil =>
    intro _
    rfl
  | cons g t ih =>
    intro hv
    have hg_keep : g.filter (fun c => c != ':') = g :=
      List.filter_eq_self.mpr (fun a ha =>
        bne_iff_ne.mpr (hv g (List.mem_cons_self g t) a ha))
    cases t with
    | nil =>
      have h1 : List.intercalate [':'] [g] = g := by
        simp [List.intercalate]
      rw [h1, hg_keep]
      simp
    | cons g2 t2 =>
      rw [show List.intercalate [':'] (g :: g2 :: t2)
          = g ++ ':' :: List.intercalate [':'] (g2 :: t2) by
        simp [List.intercalate, List.intersperse]]
      rw [List.filter_append, hg_keep]
      rw [show (':' :: List.intercalate [':'] (g2 :: t2)).filter
            (fun c => c != ':')
          = (List.intercalate [':'] (g2 :: t2)).filter (fun c => c != ':') by
        simp [List.filter_cons]]
      rw [ih (fun x hx => hv x (List.mem_cons_of_mem g hx))]
      simp

theorem ipv6ToBigInt_expanded (gs : List (List Char))
    (h : ExpandedGroups gs) :
    ipv6ToBigInt (List.intercalate [':'] gs) = some (hexVal gs.join) := by
  have hjoin_hex : gs.join.all isHexDigit = true := by
    rw [List.all_eq_true]
    intro c hc
    rcases List.mem_join.mp hc with ⟨g, hg, hcg⟩
    exact (h.2 g hg).2 c hcg
  have hjoin_ne : gs.join.isEmpty = false := by
    obtain ⟨g0, g1, g2, g3, g4, g5, g6, g7, rfl⟩ :=
      list_length8_destruct gs h.1
    have h40 := (h.2 g0 (by simp)).1
    rcases g0 with _ | ⟨c, g0t⟩
    · simp at h40
    · rfl
  unfold ipv6ToBigInt
  rw [performExpansion_expanded gs h]
  dsimp only []
  rw [filter_ne_colon_intercalate gs
    (fun g hg c hc => (expandedGroups_nocolon h g hg).2 c hc)]
  rw [if_neg (by simp [hjoin_ne, hjoin_hex])]

theorem performCompression_of_expansion (T E : List Char)
    (hT : performExpansion T = some E) (hE : performExpansion E = some E) :
    performCompression T = performCompression E := by
  unfold performCompression
  rw [hT, hE]

theorem ipv6ToBigInt_of_expansion (T E : List Char)
    (hT : performExpansion T = some E) (hE : performExpansion E = some E) :
    ipv6ToBigInt T = ipv6ToBigInt E := by
  unfold ipv6ToBigInt
  rw [hT, hE]

/-- `compress(expand(x))` as one operation: the composition the round-trip
claim quantifies over; `none` when expansion throws. -/
def compressAfterExpand (l : List Char) : Option (List Char) :=
  (performExpansion l).map performCompression

/-- C6: for any syntactically valid text `T` (per `isValidFormat`), the
expansion `E` of `T` exists, `compress(T)` equals `compress(E)` (so
`compress(expand(T))` is the value compressed from `T`), that value is a
fixed point of compress-after-expand, and `toInteger(expand(T))` equals
`toInteger(compress(T))`, both being defined. -/
theorem c6_roundtrip (T : List Char) (h : isValidFormat T = true) :
    ∃ E, performExpansion T = some E ∧
      performCompression T = performCompression E ∧
      compressAfterExpand (performCompression E)
        = some (performCompression E) ∧
      ipv6ToBigInt E = ipv6ToBigInt (performCompression T) ∧
      (ipv6ToBigInt E).isSome = true := by
  obtain ⟨gs, hT, hgs⟩ := performExpansion_valid T h
  have hEE := performExpansion_expanded gs hgs
  refine ⟨List.intercalate [':'] gs, hT, ?_, ?_, ?_, ?_⟩
  · exact performCompression_of_expansion T _ hT hEE
  · unfold compressAfterExpand
    rw [performExpansion_performCompression gs hgs]
    rfl
  · rw [performCompression_of_expansion T _ hT hEE]
    exact (ipv6ToBigInt_of_expansion _ _
      (performExpansion_performCompression gs hgs) hEE).symm
  · rw [ipv6ToBigInt_expanded gs hgs]
    rfl

theorem c6_witness :
    isValidFormat ("2001:db8::1".data) = true ∧
    (∃ E, performExpansion ("2001:db8::1".data) = some E ∧
      performCompression ("2001:db8::1".data) = performCompression E ∧
      compressAfterExpand (performCompression E)
        = some (performCompression E) ∧
      ipv6ToBigInt E = ipv6ToBigInt (performCompression ("2001:db8::1".data)) ∧
      (ipv6ToBigInt E).isSome = true) :=
  ⟨by decide, c6_roundtrip ("2001:db8::1".data) (by decide)⟩
